import Mathlib

/-!
Verification of the bytefield layout-and-resize engine.

This file gives a shallow embedding, in Lean 4, of the parts of the
`donadigo/bytefield` Python package that the specification's claims are
about, and proves (or refutes) each claim against that embedding.

The embedding follows `bytefield/base.py` and `bytefield/fields.py`
(the instance-data-store design) and, for the array-index helpers and
the byte-array proxy, `bytefields/array_proxy.py` and
`bytefields/fields.py`.  Python `bytearray`s are modelled as `List Nat`
(one `Nat` per byte), the per-instance state store as an association
list from field index to its per-instance state, and fallible
operations return `Except String _` or `Option _`.
-/

namespace ByteFieldModel

/-! ## Layout builder: `StructBase.__new__` (bytefield/base.py, lines 32-84)

A field declaration carries the information the metaclass reads off a
`ByteField` object: its declared offset (`some n` for a literal integer
offset, `none` for "follows the previous field"), its static `size`,
`is_instance` (dynamically sized, per-instance state) and
`size_includes_computation` (set only by `StructField`, whose static
size is its inner type's `min_size`). -/

structure FieldDecl where
  offset : Option Nat
  size : Nat
  isInstance : Bool
  sizeIncludesComputation : Bool
deriving DecidableEq, Repr

/-- The statically resolved data of one field after the metaclass ran:
`computed_offset` plus the identifying index of the field in declaration
order. Mirrors the attributes `StructBase.__new__` stores on each field. -/
structure FieldCore where
  idx : Nat
  size : Nat
  isInstance : Bool
  sizeIncludesComputation : Bool
  computedOffset : Nat
deriving DecidableEq, Repr

/-- A laid-out field: its core data plus `instance_fields`, the list of
dynamic fields accumulated since the last literal-offset field
(`field.instance_fields = instance_fields[:]` in `StructBase.__new__`). -/
structure FieldInfo where
  core : FieldCore
  instanceFields : List FieldCore
deriving DecidableEq, Repr

/-- State threaded through the `for key, field in attrs` loop of
`StructBase.__new__`: declaration index of the next field, `last_field`,
the running `instance_fields` accumulator, and the fields laid out so far. -/
structure BuildState where
  nextIdx : Nat
  lastField : Option FieldCore
  instanceFields : List FieldCore
  fields : List FieldInfo
deriving Repr

/-- The `computed_offset` a field with a non-integer offset receives:
0 when it is the first field, otherwise the previous field's
`computed_offset` plus (unless `size_includes_computation`) the previous
field's static size (bytefield/base.py lines 52-59). -/
def followOffset (st : BuildState) : Nat :=
  match st.lastField with
  | none => 0
  | some lf => lf.computedOffset + (if lf.sizeIncludesComputation then 0 else lf.size)

/-- One iteration of the layout loop in `StructBase.__new__`
(bytefield/base.py lines 38-71): resolve `computed_offset` (a literal
integer offset also resets the `instance_fields` accumulator), snapshot
`instance_fields` onto the field, then append the field to the
accumulator when it is an instance field. -/
def buildStep (st : BuildState) (d : FieldDecl) : BuildState :=
  let computedOffset : Nat :=
    match d.offset with
    | some n => n
    | none => followOffset st
  let instAcc : List FieldCore :=
    match d.offset with
    | some _ => []
    | none => st.instanceFields
  let core : FieldCore :=
    { idx := st.nextIdx, size := d.size, isInstance := d.isInstance,
      sizeIncludesComputation := d.sizeIncludesComputation,
      computedOffset := computedOffset }
  { nextIdx := st.nextIdx + 1,
    lastField := some core,
    instanceFields := instAcc ++ (if core.isInstance then [core] else []),
    fields := st.fields ++ [{ core := core, instanceFields := instAcc }] }

/-- Run the layout loop over the whole declaration list. -/
def buildLayout (decls : List FieldDecl) : BuildState :=
  decls.foldl buildStep { nextIdx := 0, lastField := none, instanceFields := [], fields := [] }

/-- `min_size` as computed at the end of `StructBase.__new__`
(bytefield/base.py lines 73-80): last field's computed offset plus its
static size, plus the static sizes of the accumulated instance fields
flagged `size_includes_computation` (dropping the last field itself from
the accumulator when it is an instance field). -/
def minSize (decls : List FieldDecl) : Nat :=
  let st := buildLayout decls
  match st.lastField with
  | none => 0
  | some lf =>
    let instFields := if lf.isInstance then st.instanceFields.dropLast else st.instanceFields
    lf.computedOffset + lf.size +
      (((instFields.filter (fun f => f.sizeIncludesComputation)).map (fun f => f.size)).sum)

/-! ## Struct instances (bytefield/base.py, `ByteStruct`)

An instance holds the byte buffer, a master offset, and the
per-instance state store `instance_data`.  The store is keyed by field
identity; we key it by the field's declaration index.  For the offset
and size computations only the `'size'` entry of a field's instance
data matters; `_get_instance_data` creates `{'size': 0}` on first
access, which we model as a total lookup defaulting to `0` (an absent
entry and a fresh `{'size': 0}` entry are observationally identical). -/

structure StructInst where
  masterOffset : Nat
  data : List Nat
  sizeStore : List (Nat × Nat)
deriving DecidableEq, Repr

/-- `instance_data[field]['size']`, defaulting to 0 on first access
(`ByteStruct._get_instance_data`, bytefield/base.py lines 292-305). -/
def StructInst.storedSize (s : StructInst) (idx : Nat) : Nat :=
  match s.sizeStore.lookup idx with
  | some n => n
  | none => 0

/-- `ByteField.get_size` (bytefield/base.py lines 129-144): the stored
per-instance size for instance fields, the static size otherwise. -/
def FieldCore.getSize (f : FieldCore) (s : StructInst) : Nat :=
  if f.isInstance then s.storedSize f.idx else f.size

/-- `ByteStruct.calc_field_offset` (bytefield/base.py lines 439-456). -/
def StructInst.calcFieldOffset (s : StructInst) (f : FieldInfo) : Nat :=
  if f.instanceFields ≠ [] then
    f.core.computedOffset + (f.instanceFields.map (fun g => g.getSize s)).sum
  else
    f.core.computedOffset

/-- `ByteStruct.calc_offset` (bytefield/base.py lines 422-437). -/
def StructInst.calcOffset (s : StructInst) (f : FieldInfo) : Nat :=
  s.masterOffset + s.calcFieldOffset f

/-! ## The spec's recursive description of `calc_field_offset`

The spec says: "if the field's offset is a literal integer, return it;
otherwise, recursively resolve the referenced field's offset and add
that referenced field's *current* size (querying the Instance State
Store if the referenced field is dynamic)".  The following two
definitions state exactly that over the declaration list; the C1
theorem proves the code's flattened computation equal to it. -/

/-- The *current* size of the field declared at index `j`: the Instance
State Store entry for dynamic fields, the static size otherwise. -/
def specCurSize (s : StructInst) (decls : List FieldDecl) (j : Nat) : Nat :=
  match decls[j]? with
  | none => 0
  | some d => if d.isInstance then s.storedSize j else d.size

/-- The spec's recursive offset computation for the field declared at
index `i` (the referenced field is the previous field in declaration
order, which is what `StructBase.__new__` resolves any non-integer
offset to). -/
def specFieldOffset (s : StructInst) (decls : List FieldDecl) : Nat → Nat
  | 0 =>
    match decls[0]? with
    | none => 0
    | some d => match d.offset with | some n => n | none => 0
  | j+1 =>
    match decls[j+1]? with
    | none => 0
    | some d =>
      match d.offset with
      | some n => n
      | none => specFieldOffset s decls j + specCurSize s decls j

/-- In the Python code, `size_includes_computation` is set only by
`StructField`, which always sets `is_instance = True`. -/
def FlagImpliesInstance (decls : List FieldDecl) : Prop :=
  ∀ d ∈ decls, d.sizeIncludesComputation = true → d.isInstance = true

/-- In the Python code, every dynamic field that is not a `StructField`
(`ByteArrayField(None)`, `StringField(None)`, dynamic `ArrayField`,
`VariableField`) has static size 0. -/
def PlainDynamicSizeZero (decls : List FieldDecl) : Prop :=
  ∀ d ∈ decls, d.isInstance = true → d.sizeIncludesComputation = false → d.size = 0

/-- The invariant carried through the layout loop: after laying out the
first `m` declarations, the loop state has the right indices, every
laid-out field's `calc_field_offset` agrees with the spec's recursive
computation, and the running `(last_field, instance_fields)` pair
predicts the offset of a hypothetical next "follows" field. -/
def LayoutInv (s : StructInst) (decls : List FieldDecl) (m : Nat) : Prop :=
  let st := buildLayout (decls.take m)
  st.nextIdx = m ∧
  st.fields.length = m ∧
  (∀ i (hl : i < st.fields.length),
     s.calcFieldOffset st.fields[i] = specFieldOffset s decls i) ∧
  (match st.lastField with
   | none => m = 0
   | some lf =>
     0 < m ∧
     lf.computedOffset + (if lf.sizeIncludesComputation then 0 else lf.size) +
       ((st.instanceFields.map (fun g => g.getSize s)).sum) =
     specFieldOffset s decls (m-1) + specCurSize s decls (m-1))

/-- Offset-chaining example layout with A and B both dynamic:
A(offset=0, dynamic), B(follows A, dynamic), C(follows B, static size 2). -/
def exampleABCdynamic : List FieldDecl :=
  [⟨some 0, 0, true, false⟩, ⟨none, 0, true, false⟩, ⟨none, 2, false, false⟩]

/-- Offset-chaining example layout with A static and B dynamic:
A(offset=0, size 4), B(follows A, dynamic), C(follows B, static size 2). -/
def exampleABCmixed : List FieldDecl :=
  [⟨some 0, 4, false, false⟩, ⟨none, 0, true, false⟩, ⟨none, 2, false, false⟩]

/-- Offset-chaining example layout with A and B both static:
A(offset=0, size 4), B(follows A, size 4), C(follows B, static size 2). -/
def exampleABCstatic : List FieldDecl :=
  [⟨some 0, 4, false, false⟩, ⟨none, 4, false, false⟩, ⟨none, 2, false, false⟩]

/-- The field C laid out by the example layouts. -/
def exampleFieldC (decls : List FieldDecl) : FieldInfo :=
  (buildLayout decls).fields.getD 2 ⟨⟨0, 0, false, false, 0⟩, []⟩

/-! ## Buffer resize: `ByteStruct._resize_data` and `ByteStruct.resize`
(bytefield/base.py lines 307-352 and 392-420) -/

/-- `ByteStruct._resize_data` (bytefield/base.py lines 392-420), as a
function of the already-computed field offset, the old size and the new
size.  Shrinking: `rest = data[offset:offset+new_size] +
data[offset+old_size:]; del data[offset:]; data.extend(rest)`.
Growing: `rest = bytearray(added) + data[offset+old_size:];
del data[offset+old_size:]; data.extend(rest)`.  Python slices clamp,
which `List.take`/`List.drop` also do. -/
def resizeDataBytes (offset oldSize newSize : Nat) (data : List Nat) : List Nat :=
  if oldSize > newSize then
    data.take offset ++ ((data.drop offset).take newSize ++ data.drop (offset + oldSize))
  else if oldSize < newSize then
    data.take (offset + oldSize) ++
      (List.replicate (newSize - oldSize) 0 ++ data.drop (offset + oldSize))
  else data

/-- `ByteStruct.resize(field, length, resize_bytes=True)` for a dynamic
byte-range-style field (bytefield/base.py lines 307-352): read the old
size from the store, run the field's `resize` (which writes the new
length into the instance store, bytefield/fields.py lines 184-186), then
`_resize_data` at the field's freshly computed offset.  Resizing a
non-instance field raises. -/
def ByteStructResize (s : StructInst) (f : FieldInfo) (newLen : Nat) :
    Except String StructInst :=
  if f.core.isInstance = false then
    .error "non instance fields cannot be resized"
  else
    let oldSize := f.core.getSize s
    let s' : StructInst := { s with sizeStore := (f.core.idx, newLen) :: s.sizeStore }
    let offset := s'.calcOffset f
    let newSize := f.core.getSize s'
    .ok { s' with data := resizeDataBytes offset oldSize newSize s'.data }

/-- What the claim's words describe for the shrinking case: splice out
`(old_size - new_size)` bytes *starting at the field's offset*. -/
def claimShrinkSplice (offset oldSize newSize : Nat) (data : List Nat) : List Nat :=
  data.take offset ++ data.drop (offset + (oldSize - newSize))

/-! ## Scalar codecs and the pack/unpack helpers
(bytefield/fields.py: `SimpleField`, `IntegerField`, `BooleanField`,
`StringField`, `pack_value`, `unpack_bytes`) -/

/-- `struct.pack` byte order: `Endianness.NATIVE` resolves to the host
order, little-endian on the reference platform, so the model keeps just
the two concrete orders. -/
inductive ByteOrder where
  | little
  | big
deriving DecidableEq, Repr

/-- Fixed-width little-endian base-256 digits of `u`, `n` bytes. -/
def toLEBytes : Nat → Nat → List Nat
  | 0, _ => []
  | n + 1, u => u % 256 :: toLEBytes n (u / 256)

/-- Rebuild a natural number from little-endian base-256 digits. -/
def fromLEBytes : List Nat → Nat
  | [] => 0
  | b :: bs => b + 256 * fromLEBytes bs

/-- `struct.pack` of an integer of `nbytes` bytes: two's-complement
reduction modulo `2^(8*nbytes)`, then the base-256 digits in the
requested order. -/
def intPack (nbytes : Nat) (bo : ByteOrder) (v : Int) : List Nat :=
  let u : Nat := (v % ((2 : Int) ^ (8 * nbytes))).toNat
  match bo with
  | .little => toLEBytes nbytes u
  | .big => (toLEBytes nbytes u).reverse

/-- `struct.unpack` of an integer of `nbytes` bytes: rebuild the
unsigned value, then (for signed formats) subtract `2^(8*nbytes)` from
values at or above `2^(8*nbytes-1)`. -/
def intUnpack (signed : Bool) (nbytes : Nat) (bo : ByteOrder) (bs : List Nat) : Int :=
  let le := match bo with | .little => bs | .big => bs.reverse
  let u := fromLEBytes le
  if signed = true ∧ 2 ^ (8 * nbytes - 1) ≤ u then (u : Int) - 2 ^ (8 * nbytes) else (u : Int)

/-- `v` is representable by an integer field of `nbytes` bytes. -/
def IntRepresentable (signed : Bool) (nbytes : Nat) (v : Int) : Prop :=
  if signed = true then
    -(2 ^ (8 * nbytes - 1)) ≤ v ∧ v < 2 ^ (8 * nbytes - 1)
  else
    0 ≤ v ∧ v < 2 ^ (8 * nbytes)

/-- `struct.pack(f'{L}s', s)`: truncate to `L` bytes, zero-pad to `L`. -/
def stringPack (L : Nat) (s : List Nat) : List Nat :=
  s.take L ++ List.replicate (L - s.length) 0

/-- `data[offset:offset+len(payload)] = payload` on a bytearray. -/
def writeBytes (data : List Nat) (offset : Nat) (payload : List Nat) : List Nat :=
  data.take offset ++ payload ++ data.drop (offset + payload.length)

/-- The window read by every `_getvalue`: bounds check
`offset + size > len(data)` then `data[offset:offset+size]`. -/
def readSlice (data : List Nat) (offset size : Nat) : Option (List Nat) :=
  if offset + size > data.length then none
  else some ((data.drop offset).take size)

/-- `pack_value(value, field)` (bytefield/fields.py lines 608-625): a
fresh zero buffer of `computed_offset + size` bytes to which the field's
`_setvalue` writes the packed payload at `computed_offset`. -/
def packValue (off : Nat) (payload : List Nat) : List Nat :=
  writeBytes (List.replicate (off + payload.length) 0) off payload

/-- `unpack_bytes(data, field)` (bytefield/fields.py lines 584-605):
wraps the data in a throwaway struct and runs the field's `_getvalue`,
i.e. a bounds-checked slice at `computed_offset` handed to the codec. -/
def unpackBytesInt (signed : Bool) (nbytes : Nat) (bo : ByteOrder) (off : Nat)
    (data : List Nat) : Option Int :=
  (readSlice data off nbytes).map (intUnpack signed nbytes bo)

/-- `unpack_bytes` for a fixed-length string field: bounds-checked slice
of the string's bytes (`struct.unpack(f'{size}s')` returns the slice). -/
def unpackBytesString (L off : Nat) (data : List Nat) : Option (List Nat) :=
  readSlice data off L

/-- `BooleanField._getvalue` (bytefield/fields.py lines 314-315):
`bool()` of the decoded unsigned integer. -/
def boolUnpack (nbytes : Nat) (bo : ByteOrder) (bs : List Nat) : Bool :=
  intUnpack false nbytes bo bs ≠ 0

/-- `BooleanField._setvalue` (bytefield/fields.py lines 317-318):
`int()` of the boolean, packed as an unsigned integer. -/
def boolPack (nbytes : Nat) (bo : ByteOrder) (b : Bool) : List Nat :=
  intPack nbytes bo (if b then 1 else 0)

/-- Float/double fields modelled at the IEEE-754 bit-pattern level: the
codec moves the `nbytes` pattern bytes unchanged (packing then unpacking
a float or double is the identity on its 32- or 64-bit pattern); the
conversion between Python floats and 32-bit patterns is the external
scalar codec the spec places out of scope. -/
def floatPatPack (nbytes : Nat) (bo : ByteOrder) (pattern : Nat) : List Nat :=
  match bo with
  | .little => toLEBytes nbytes pattern
  | .big => (toLEBytes nbytes pattern).reverse

/-- Bit-pattern decode of a float/double field. -/
def floatPatUnpack (nbytes : Nat) (bo : ByteOrder) (bs : List Nat) : Nat :=
  fromLEBytes (match bo with | .little => bs | .big => bs.reverse)

/-- `SimpleField._getvalue` (bytefield/fields.py lines 134-139) for a
2-byte little-endian signed integer field, through the live offset
computation: bounds check then decode at `calc_offset`. -/
def intFieldGet (s : StructInst) (f : FieldInfo) (signed : Bool) (nbytes : Nat)
    (bo : ByteOrder) : Option Int :=
  (readSlice s.data (s.calcOffset f) nbytes).map (intUnpack signed nbytes bo)

/-- The C2 example struct: a dynamic byte-range field at offset 0
followed by a fixed 2-byte integer field. -/
def resizeExampleDecls : List FieldDecl :=
  [⟨none, 0, true, false⟩, ⟨none, 2, false, false⟩]

/-- The dynamic byte-range field of the C2 example struct. -/
def resizeExampleByteField : FieldInfo :=
  (buildLayout resizeExampleDecls).fields.getD 0 ⟨⟨0, 0, false, false, 0⟩, []⟩

/-- The trailing integer field of the C2 example struct. -/
def resizeExampleIntField : FieldInfo :=
  (buildLayout resizeExampleDecls).fields.getD 1 ⟨⟨0, 0, false, false, 0⟩, []⟩

/-- A struct with a single dynamic byte-range field, used to refute the
claim's "splice out starting at the field's offset" wording. -/
def shrinkExampleDecls : List FieldDecl :=
  [⟨none, 0, true, false⟩]

/-- The single dynamic field of `shrinkExampleDecls`. -/
def shrinkExampleField : FieldInfo :=
  (buildLayout shrinkExampleDecls).fields.getD 0 ⟨⟨0, 0, false, false, 0⟩, []⟩

/-- The successful result of a fallible operation, if any. -/
def exOk? {ε α : Type} : Except ε α → Option α
  | .ok a => some a
  | .error _ => none

/-- The error raised by a fallible operation, if any. -/
def exErr? {ε α : Type} : Except ε α → Option ε
  | .ok _ => none
  | .error e => some e

/-! ## Array indexing (bytefields/array_proxy.py lines 6-19 and 94-129) -/

/-- One step of `_to_absolute_indices`: `shape[i] + ind if ind < 0 else
ind` (negative indices wrap by adding the dimension). -/
def resolveIndex (s : Nat) (i : Int) : Int :=
  if i < 0 then (s : Int) + i else i

/-- `_to_absolute_indices(shape, index)` (bytefields/array_proxy.py
lines 6-13): wrap negatives, then reject any resolved entry outside
`[0, shape[i])` (the code writes `< 0 or > shape[i] - 1`) by returning
`None`.  An index tuple longer than the shape raises in Python and is
modelled as `none`. -/
def toAbsoluteIndices : List Nat → List Int → Option (List Nat)
  | _, [] => some []
  | [], _ :: _ => none
  | s :: stail, i :: itail =>
    let r := resolveIndex s i
    if r < 0 ∨ r > (s : Int) - 1 then none
    else (toAbsoluteIndices stail itail).map (fun rest => r.toNat :: rest)

/-- `_get_array_index(shape, index)` (bytefields/array_proxy.py lines
16-19): `sum(index[i] * prod(shape[i+1:]) for i in range(len(index)-1))
+ index[-1]`. -/
def getArrayIndex (shape : List Nat) (index : List Nat) : Nat :=
  (((List.range (index.length - 1)).map
      (fun i => index.getD i 0 * ((shape.drop (i + 1)).prod))).sum) +
    index.getD (index.length - 1) 0

/-- Standard row-major flattening, written as the textbook recursion:
the head index weighted by the product of the remaining dimensions. -/
def rowMajorFlat : List Nat → List Nat → Nat
  | _, [] => 0
  | _, [i] => i
  | shape, i :: irest => i * ((shape.drop 1).prod) + rowMajorFlat (shape.drop 1) irest

/-- `ArrayFieldProxy.__getitem__` (bytefields/array_proxy.py lines
94-105 with `_validate_index`, lines 117-129) for a scalar element
field of `elemSize` bytes: resolve and bounds-check the index (the
proxy also rejects a falsy — empty — resolved list), set the shared
element descriptor's `computed_offset` to `arr_offset + flat *
elem_size` where `arr_offset = calc_field_offset(field)`, then run the
element's `_getvalue`, a bounds-checked slice at `master_offset +
computed_offset`. -/
def arrayProxyGetBytes (s : StructInst) (f : FieldInfo) (elemSize : Nat)
    (shape : List Nat) (index : List Int) : Option (List Nat) :=
  match toAbsoluteIndices shape index with
  | none => none
  | some abs =>
    if abs.isEmpty then none
    else
      readSlice s.data
        (s.masterOffset + (s.calcFieldOffset f + getArrayIndex shape abs * elemSize))
        elemSize

/-- The C5 example struct: one static `ArrayField` of shape (3, 3) with
1-byte elements (static size 9) at offset 0. -/
def arrayExampleDecls : List FieldDecl :=
  [⟨none, 9, false, false⟩]

/-- The array field of the C5 example struct. -/
def arrayExampleField : FieldInfo :=
  (buildLayout arrayExampleDecls).fields.getD 0 ⟨⟨0, 0, false, false, 0⟩, []⟩

/-! ## Logical size and overflow check
(bytefield/base.py lines 265-290 and 354-364) -/

/-- `ByteStruct.size`: `calc_field_offset(last_field) +
last_field.get_size(self)`, 0 when the struct has no fields. -/
def structSize (decls : List FieldDecl) (s : StructInst) : Nat :=
  match (buildLayout decls).fields.getLast? with
  | none => 0
  | some fi => s.calcFieldOffset fi + fi.core.getSize s

/-- `ByteStruct.check_overflow` (bytefield/base.py lines 354-364):
raises `OverflowError` when `self.size > len(self.data)`, otherwise
does nothing; the instance is handed back unchanged on success. -/
def checkOverflow (decls : List FieldDecl) (s : StructInst) : Except String StructInst :=
  if structSize decls s > s.data.length then
    .error "overflow detected: fields after resize take more size than the struct data"
  else
    .ok s

/-- The C6 example struct: a fixed 4-byte integer followed by a dynamic
byte-range field. -/
def overflowExampleDecls : List FieldDecl :=
  [⟨none, 4, false, false⟩, ⟨none, 0, true, false⟩]

/-- The leading integer field of the C6 example struct. -/
def overflowExampleIntField : FieldInfo :=
  (buildLayout overflowExampleDecls).fields.getD 0 ⟨⟨0, 0, false, false, 0⟩, []⟩

/-- The C6 example instance: a 4-byte buffer, with the dynamic field
logically resized to 100 bytes and no physical resize. -/
def overflowExampleInst : StructInst :=
  ⟨0, [1, 0, 0, 0], [(1, 100)]⟩

/-! ## `min_size` (C7) -/

/-- The default/placeholder field declaration. -/
def defaultDecl : FieldDecl := ⟨none, 0, false, false⟩

/-- The static offset of field `k` under pure "follows" chaining: the
first field's literal offset (or 0) plus the static sizes of the fields
before `k` (0 for `size_includes_computation` fields). -/
def specStaticOffset (decls : List FieldDecl) : Nat → Nat
  | 0 => (match decls[0]? with | none => 0 | some d => d.offset.getD 0)
  | k + 1 =>
    specStaticOffset decls k +
      (match decls[k]? with
       | none => 0
       | some d => if d.sizeIncludesComputation then 0 else d.size)

/-- Sum of the static sizes of the flagged
(`size_includes_computation`) fields among the first `k` declarations. -/
def flaggedSum (decls : List FieldDecl) : Nat → Nat
  | 0 => 0
  | k + 1 =>
    flaggedSum decls k +
      (match decls[k]? with
       | none => 0
       | some d => if d.sizeIncludesComputation then d.size else 0)

/-- The claim's formula for `min_size`: the last field's static offset
plus its static size, plus the static sizes of *all* other flagged
dynamic fields. -/
def claimMinSize (decls : List FieldDecl) : Nat :=
  specStaticOffset decls (decls.length - 1) +
    (decls.getD (decls.length - 1) defaultDecl).size +
    flaggedSum decls (decls.length - 1)

/-- C7 counterexample layout: a nested-struct-style field (dynamic,
flagged, static size 4 = its inner type's `min_size`) followed by a
4-byte static field at literal offset 0. -/
def minSizeCounterexampleDecls : List FieldDecl :=
  [⟨none, 4, true, true⟩, ⟨some 0, 4, false, false⟩]

/-! ## String field setter (C8) and variable field (C9)
(bytefield/fields.py lines 345-385 and 549-581) -/

/-- `StringField._setvalue` (bytefield/fields.py lines 367-385), with
strings modelled as byte lists (one byte per character).  For a
constant-length (non-instance) field the code *asserts*
`len(value) == self.size` before packing, so a mismatched length raises
`AssertionError`.  For a variable-length field it bounds-checks at the
old stored size, resizes (store and buffer) when the length changed,
then writes `struct.pack(f'{size}s', ...)` at the offset computed
before the resize. -/
def stringSetValue (s : StructInst) (f : FieldInfo) (value : List Nat) :
    Except String StructInst :=
  let offset := s.calcOffset f
  if f.core.isInstance = false then
    if value.length = f.core.size then
      .ok { s with data := writeBytes s.data offset (stringPack f.core.size value) }
    else
      .error "failed to set value: string is length is not equal to size characters"
  else
    let storedLen := s.storedSize f.core.idx
    if offset + storedLen > s.data.length then
      .error "failed to set value: field is out of bounds"
    else
      let s' :=
        if value.length ≠ storedLen then
          { s with
            sizeStore := (f.core.idx, value.length) :: s.sizeStore,
            data := resizeDataBytes offset storedLen value.length s.data }
        else s
      .ok { s' with
        data := writeBytes s'.data offset (stringPack (s'.storedSize f.core.idx) value) }

/-- What the claim (and the class docstring) describe for a
constant-length string field: silently truncate a longer value, write a
shorter value partially, never resize. -/
def claimStringSetFixed (s : StructInst) (f : FieldInfo) (value : List Nat) : StructInst :=
  { s with data := writeBytes s.data (s.calcOffset f) (value.take f.core.size) }

/-- The C8 fixed-length example struct: one `StringField(length=4)`. -/
def fixedStringDecls : List FieldDecl :=
  [⟨none, 4, false, false⟩]

/-- The fixed-length string field of `fixedStringDecls`. -/
def fixedStringField : FieldInfo :=
  (buildLayout fixedStringDecls).fields.getD 0 ⟨⟨0, 0, false, false, 0⟩, []⟩

/-- The C8 variable-length example struct: one `StringField(None)`. -/
def varStringDecls : List FieldDecl :=
  [⟨none, 0, true, false⟩]

/-- The variable-length string field of `varStringDecls`. -/
def varStringField : FieldInfo :=
  (buildLayout varStringDecls).fields.getD 0 ⟨⟨0, 0, false, false, 0⟩, []⟩

/-- `VariableField._getvalue` (bytefield/fields.py lines 568-573):
`if not data.get('child'): return None`, otherwise delegate to the
assigned child's `_getvalue` (a bounds-checked read of the child's
`size` bytes at its offset). -/
def variableFieldGet (child : Option FieldInfo) (s : StructInst) (size : Nat) :
    Except String (Option (List Nat)) :=
  match child with
  | none => .ok none
  | some cf =>
    match readSlice s.data (s.calcOffset cf) size with
    | none => .error "failed to get value: field is out of bounds"
    | some bs => .ok (some bs)

/-- `VariableField._setvalue` (bytefield/fields.py lines 575-581): with
no child assigned it raises the "does not contain any field" error,
otherwise it delegates to the child's `_setvalue`. -/
def variableFieldSet (child : Option FieldInfo) (s : StructInst) (value : List Nat) :
    Except String StructInst :=
  match child with
  | none =>
    .error "VariableField does not contain any field, call resize() with the field instance you want to store"
  | some cf =>
    if s.calcOffset cf + value.length > s.data.length then
      .error "failed to set value: field is out of bounds"
    else
      .ok { s with data := writeBytes s.data (s.calcOffset cf) value }

/-! ## Instance isolation for dynamic array fields (C3)

The struct type `class T(ByteStruct): arr = ArrayField(None,
IntegerField)` — one dynamic 1-D array of 4-byte native (little-endian)
integers at offset 0 — instantiated twice over one shared `ArrayField`
descriptor.  Per-instance state (`instance_data[field]`, holding
`'shape'` and `'size'`) lives on each instance; the one genuinely
shared piece of mutable state, the element descriptor's
`computed_offset`, which `ArrayField._setvalue` and the proxy mutate on
every element access, is modelled explicitly in the world. -/

/-- The `instance_data` entry of the `arr` field: `'shape'` (1-D, absent
until first set/resize) and `'size'`. -/
structure ArrayInstState where
  shape : Option Nat
  size : Nat
deriving DecidableEq, Repr

/-- One instance of the example struct: its buffer and its (lazily
created) `instance_data` entry for `arr`. -/
structure ArrayInst where
  data : List Nat
  state : Option ArrayInstState
deriving DecidableEq, Repr

/-- `ArrayField.get_size` (bytefield/fields.py lines 485-492): element
size times the product of the per-instance shape, which defaults to the
descriptor's `(0,)` until a shape is stored. -/
def arrayGetSize (inst : ArrayInst) : Nat :=
  4 * (match inst.state with
       | some st => st.shape.getD 0
       | none => 0)

/-- The element-writing loop of `ArrayField._setvalue` (bytefield/
fields.py lines 518-523): for each index, set the shared element
descriptor's `computed_offset` to `base + i * 4` and run
`SimpleField._setvalue` (bounds check, then pack).  Returns the new
buffer and the final value of the shared `computed_offset`. -/
def writeElemsFrom (base : Nat) : Nat → List Int → List Nat → Nat →
    Option (List Nat × Nat)
  | _, [], data, eo => some (data, eo)
  | i, v :: rest, data, _ =>
    let eo' := base + i * 4
    if eo' + 4 > data.length then none
    else writeElemsFrom base (i + 1) rest (writeBytes data eo' (intPack 4 .little v)) eo'

/-- `ArrayField._setvalue` (bytefield/fields.py lines 502-523) for the
example struct (field offset 0): default the stored shape to `(0,)`,
resize store and buffer when the value's shape differs
(`_resize_with_data`), then write the elements through the shared
element descriptor. -/
def arraySetValue (inst : ArrayInst) (eo : Nat) (value : List Int) :
    Option (ArrayInst × Nat) :=
  let st0 : ArrayInstState :=
    match inst.state with
    | some st => st
    | none => ⟨none, 0⟩
  let shape0 : Nat := st0.shape.getD 0
  if value.length ≠ shape0 then
    let oldSize := 4 * shape0
    let newSize := 4 * value.length
    let st2 : ArrayInstState := ⟨some value.length, newSize⟩
    let data2 :=
      if oldSize ≠ newSize then resizeDataBytes 0 oldSize newSize inst.data else inst.data
    match writeElemsFrom 0 0 value data2 eo with
    | none => none
    | some (d, eo') => some (⟨d, some st2⟩, eo')
  else
    match writeElemsFrom 0 0 value inst.data eo with
    | none => none
    | some (d, eo') => some (⟨d, some ⟨some shape0, st0.size⟩⟩, eo')

/-- The element-reading loop of `ArrayFieldProxy.to_numpy`
(bytefields/array_proxy.py lines 79-92): mutate the shared
`computed_offset` per index, then `SimpleField._getvalue`. -/
def readElemsFrom (base : Nat) : Nat → Nat → List Nat → Nat →
    Option (List Int × Nat)
  | _, 0, _, eo => some ([], eo)
  | i, c + 1, data, _ =>
    let eo' := base + i * 4
    match readSlice data eo' 4 with
    | none => none
    | some bs =>
      match readElemsFrom base (i + 1) c data eo' with
      | none => none
      | some (vs, eof) => some (intUnpack true 4 .little bs :: vs, eof)

/-- `ArrayFieldProxy.to_numpy` for the example struct: read `shape`
(defaulting to the descriptor's `(0,)`) elements from offset 0. -/
def arrayToNumpy (inst : ArrayInst) (eo : Nat) : Option (List Int × Nat) :=
  readElemsFrom 0 0
    (match inst.state with
     | some st => st.shape.getD 0
     | none => 0)
    inst.data eo

/-- `ByteStruct.resize(T.arr_field, k, resize_bytes)` on one instance
(bytefield/base.py lines 307-352 with `ArrayField.resize`): store the
new shape and size, and splice the buffer when `resize_bytes`. -/
def arrayResize (inst : ArrayInst) (k : Nat) (resizeBytes : Bool) : ArrayInst :=
  let old := arrayGetSize inst
  let st' : ArrayInstState := ⟨some k, 4 * k⟩
  ⟨if resizeBytes then resizeDataBytes 0 old (4 * k) inst.data else inst.data, some st'⟩

/-- Two instances of the example struct plus the shared element
descriptor's mutable `computed_offset`. -/
structure ArrayWorld where
  a : ArrayInst
  b : ArrayInst
  elemOffset : Nat
deriving DecidableEq, Repr

/-- `a.arr = value`: runs against instance `a`'s buffer and store, and
mutates the shared element offset. -/
def worldSetA (w : ArrayWorld) (v : List Int) : Option ArrayWorld :=
  match arraySetValue w.a w.elemOffset v with
  | none => none
  | some (a', eo') => some ⟨a', w.b, eo'⟩

/-- `b.arr = value`. -/
def worldSetB (w : ArrayWorld) (v : List Int) : Option ArrayWorld :=
  match arraySetValue w.b w.elemOffset v with
  | none => none
  | some (b', eo') => some ⟨w.a, b', eo'⟩

/-- `a.resize(T.arr_field, k, resize_bytes)`. -/
def worldResizeA (w : ArrayWorld) (k : Nat) (rb : Bool) : ArrayWorld :=
  ⟨arrayResize w.a k rb, w.b, w.elemOffset⟩

/-! ## Byte-array reads return fresh copies (C10)

Python `bytearray`s have reference semantics, and slicing
(`data[offset:offset+size]`) allocates a *new* bytearray.  To state
freshness we model the heap of bytearrays explicitly — a list of
buffers addressed by index, with slicing as allocation, which is the
semantics of the built-in operations `ByteArrayField._getvalue`
(bytefields/fields.py lines 165-170) and
`ByteArrayFieldProxy.to_bytearray` (bytefields/array_proxy.py lines
161-173) rely on. -/

/-- A heap of bytearray objects. -/
structure Heap where
  bufs : List (List Nat)
deriving DecidableEq, Repr

/-- Dereference a bytearray. -/
def Heap.read (h : Heap) (r : Nat) : List Nat :=
  h.bufs.getD r []

/-- Allocate a fresh bytearray holding `v`, returning its reference. -/
def Heap.alloc (h : Heap) (v : List Nat) : Heap × Nat :=
  (⟨h.bufs ++ [v]⟩, h.bufs.length)

/-- `buf[i] = b` on the bytearray at `r`. -/
def Heap.writeByte (h : Heap) (r i b : Nat) : Heap :=
  ⟨h.bufs.set r ((h.read r).set i b)⟩

/-- A struct instance whose buffer lives on the heap, with one
byte-array field at `fieldOffset` of current size `fieldSize`. -/
structure HeapInst where
  dataRef : Nat
  masterOffset : Nat
  fieldOffset : Nat
  fieldSize : Nat
deriving DecidableEq, Repr

/-- `ByteArrayField._getvalue` (bytefields/fields.py lines 165-170):
bounds check, then `return byte_struct.data[offset:offset + self.size]`
— the slice is a freshly allocated bytearray. -/
def byteArrayGetValue (h : Heap) (inst : HeapInst) : Except String (Heap × Nat) :=
  let offset := inst.masterOffset + inst.fieldOffset
  if offset + inst.fieldSize > (h.read inst.dataRef).length then
    .error "Failed to get value: field is out of bounds"
  else
    .ok (h.alloc (((h.read inst.dataRef).drop offset).take inst.fieldSize))

/-- `ByteArrayFieldProxy.to_bytearray` (bytefields/array_proxy.py lines
161-173): `_validate_offset` then the same slice, again a fresh
bytearray. -/
def proxyToBytearray (h : Heap) (inst : HeapInst) : Except String (Heap × Nat) :=
  let offset := inst.masterOffset + inst.fieldOffset
  if offset + inst.fieldSize > (h.read inst.dataRef).length then
    .error "failed to get value: field is out of bounds"
  else
    .ok (h.alloc (((h.read inst.dataRef).drop offset).take inst.fieldSize))

/-- `ByteArrayFieldProxy.__setitem__` (bytefields/array_proxy.py lines
180-183): validate the offset and the (wrap-around) index, then write
one byte of the instance's buffer in place. -/
def proxySetItem (h : Heap) (inst : HeapInst) (index : Int) (value : Nat) :
    Except String Heap :=
  let offset := inst.masterOffset + inst.fieldOffset
  if offset + inst.fieldSize > (h.read inst.dataRef).length then
    .error "failed to get value: field is out of bounds"
  else
    match toAbsoluteIndices [inst.fieldSize] [index] with
    | none => .error "index is out of bounds"
    | some [] => .error "index is out of bounds"
    | some (i :: _) => .ok (h.writeByte inst.dataRef (offset + i) value)

/-- `ByteArrayField._setvalue` (bytefields/fields.py lines 172-186) for
a matching-length value: bounds check, then
`data[offset:offset+size] = value` in place on the instance's buffer. -/
def byteArraySetValue (h : Heap) (inst : HeapInst) (value : List Nat) :
    Except String Heap :=
  if value.length ≠ inst.fieldSize then
    .error "bytearray size not matching"
  else
    let offset := inst.masterOffset + inst.fieldOffset
    if offset + inst.fieldSize > (h.read inst.dataRef).length then
      .error "Failed to set value: field is out of bounds"
    else
      .ok ⟨h.bufs.set inst.dataRef (writeBytes (h.read inst.dataRef) offset value)⟩

/-- The loop-state facts about `buildLayout (decls.take m)` needed to
compute `min_size`: the last field mirrors declaration `m-1`, its
computed offset is the pure-follows static offset, and the accumulated
`instance_fields` (minus the last field itself, when dynamic) carry
exactly the flagged static sizes of the previous declarations. -/
def MinSizeInv (decls : List FieldDecl) (m : Nat) : Prop :=
  ∃ lf prev,
    (buildLayout (decls.take m)).lastField = some lf ∧
    (buildLayout (decls.take m)).instanceFields =
      prev ++ (if lf.isInstance = true then [lf] else []) ∧
    lf.size = (decls.getD (m - 1) defaultDecl).size ∧
    lf.isInstance = (decls.getD (m - 1) defaultDecl).isInstance ∧
    lf.sizeIncludesComputation = (decls.getD (m - 1) defaultDecl).sizeIncludesComputation ∧
    lf.computedOffset = specStaticOffset decls (m - 1) ∧
    (((prev.filter (fun c => c.sizeIncludesComputation)).map (fun c => c.size)).sum) =
      flaggedSum decls (m - 1)

theorem calcFieldOffset_normal (s : StructInst) (f : FieldInfo) :
    s.calcFieldOffset f =
      f.core.computedOffset + ((f.instanceFields.map (fun g => g.getSize s)).sum) := by
  unfold StructInst.calcFieldOffset
  by_cases h : f.instanceFields = []
  · simp [h]
  · simp [h]

theorem buildLayout_take_succ (decls : List FieldDecl) (m : Nat) (h : m < decls.length) :
    buildLayout (decls.take (m+1)) = buildStep (buildLayout (decls.take m)) decls[m] := by
  unfold buildLayout
  rw [List.take_succ, List.foldl_append]
  simp [List.getElem?_eq_getElem h]

theorem specFieldOffset_lit {s : StructInst} {decls : List FieldDecl} {m : Nat}
    {d : FieldDecl} {n : Nat} (hm : decls[m]? = some d) (hd : d.offset = some n) :
    specFieldOffset s decls m = n := by
  cases m <;> simp [specFieldOffset, hm, hd]

theorem specFieldOffset_follows_zero {s : StructInst} {decls : List FieldDecl}
    {d : FieldDecl} (hm : decls[0]? = some d) (hd : d.offset = none) :
    specFieldOffset s decls 0 = 0 := by
  simp [specFieldOffset, hm, hd]

theorem specFieldOffset_follows_succ {s : StructInst} {decls : List FieldDecl} {j : Nat}
    {d : FieldDecl} (hm : decls[j+1]? = some d) (hd : d.offset = none) :
    specFieldOffset s decls (j+1) = specFieldOffset s decls j + specCurSize s decls j := by
  simp [specFieldOffset, hm, hd]

theorem layoutInv_zero (s : StructInst) (decls : List FieldDecl) : LayoutInv s decls 0 := by
  unfold LayoutInv buildLayout
  simp

/-- The new field's own static-size/instance-store contribution to the
offset of whatever follows it equals the spec's "current size" of that
field, given the two facts the Python field kinds guarantee. -/
theorem contrib_eq (s : StructInst) {decls : List FieldDecl} {d : FieldDecl}
    (hflag : FlagImpliesInstance decls) (hzero : PlainDynamicSizeZero decls)
    (hdmem : d ∈ decls) (m : Nat) (hdq : decls[m]? = some d) :
    (if d.sizeIncludesComputation then 0 else d.size) +
      (if d.isInstance then s.storedSize m else 0) = specCurSize s decls m := by
  simp only [specCurSize, hdq]
  by_cases hI : d.isInstance = true
  · by_cases hF : d.sizeIncludesComputation = true
    · simp [hI, hF]
    · have hz := hzero d hdmem hI (by simpa using hF)
      simp [hI, hF, hz]
  · have hF : ¬ (d.sizeIncludesComputation = true) := fun h => hI (hflag d hdmem h)
    simp [hI, hF]

theorem sum_map_getSize_ite (s : StructInst) (core : FieldCore) :
    (((if core.isInstance = true then [core] else []).map (fun g => g.getSize s)).sum) =
      if core.isInstance = true then s.storedSize core.idx else 0 := by
  by_cases h : core.isInstance = true <;> simp [h, FieldCore.getSize]

theorem layoutInv_succ (s : StructInst) (decls : List FieldDecl)
    (hflag : FlagImpliesInstance decls) (hzero : PlainDynamicSizeZero decls)
    (m : Nat) (hm : m < decls.length) (ih : LayoutInv s decls m) :
    LayoutInv s decls (m+1) := by
  obtain ⟨hidx, hlen, hcalc, hlast⟩ := ih
  have hdq : decls[m]? = some decls[m] := List.getElem?_eq_getElem hm
  have hdmem : decls[m] ∈ decls := List.getElem_mem hm
  unfold LayoutInv
  rw [buildLayout_take_succ decls m hm]
  cases hd : decls[m].offset with
  | some n =>
    refine ⟨?_, ?_, ?_, ?_⟩
    · simp [buildStep, hd, hidx]
    · simp [buildStep, hd, hlen]
    · intro i hl
      simp only [buildStep, hd] at hl ⊢
      rcases Nat.lt_or_ge i (buildLayout (decls.take m)).fields.length with hi | hi
      · rw [List.getElem_append_left hi]
        exact hcalc i hi
      · have hieq : i = (buildLayout (decls.take m)).fields.length := by
          simp only [List.length_append, List.length_cons, List.length_nil] at hl
          omega
        subst hieq
        rw [List.getElem_concat_length, calcFieldOffset_normal, hlen,
          specFieldOffset_lit hdq hd]
        · simp
        · rfl
    · refine ⟨Nat.succ_pos m, ?_⟩
      simp only [buildStep, hd, Nat.add_sub_cancel, List.nil_append]
      rw [specFieldOffset_lit hdq hd]
      rw [← contrib_eq s hflag hzero hdmem m hdq]
      by_cases hI : decls[m].isInstance = true
      all_goals simp [hI, FieldCore.getSize, hidx]
      all_goals omega
  | none =>
    cases hlf : (buildLayout (decls.take m)).lastField with
    | none =>
      rw [hlf] at hlast
      simp only at hlast
      subst hlast
      refine ⟨?_, ?_, ?_, ?_⟩
      · simp [buildStep, hd, buildLayout]
      · simp [buildStep, hd, buildLayout]
      · intro i hl
        simp only [buildStep, hd, buildLayout, List.take_zero, List.foldl_nil] at hl ⊢
        have hi0 : i = 0 := by
          simp at hl
          omega
        subst hi0
        simp only [List.nil_append, List.getElem_cons_zero]
        rw [calcFieldOffset_normal, specFieldOffset_follows_zero hdq hd]
        simp [followOffset]
      · refine ⟨Nat.succ_pos 0, ?_⟩
        simp only [buildStep, hd, buildLayout, List.take_zero, List.foldl_nil,
          Nat.add_sub_cancel, List.nil_append]
        rw [specFieldOffset_follows_zero hdq hd]
        rw [← contrib_eq s hflag hzero hdmem 0 hdq]
        by_cases hI : decls[0].isInstance = true
        all_goals simp [hI, FieldCore.getSize, followOffset]
    | some lf =>
      rw [hlf] at hlast
      obtain ⟨hm0, hA⟩ := hlast
      obtain ⟨j, rfl⟩ : ∃ j, m = j + 1 := ⟨m - 1, by omega⟩
      simp only [Nat.add_sub_cancel] at hA
      have hnewcalc :
          followOffset (buildLayout (decls.take (j+1))) +
            (((buildLayout (decls.take (j+1))).instanceFields.map
              (fun g => g.getSize s)).sum) = specFieldOffset s decls (j+1) := by
        rw [specFieldOffset_follows_succ hdq hd, ← hA]
        simp only [followOffset, hlf, Nat.add_sub_cancel]
      refine ⟨?_, ?_, ?_, ?_⟩
      · simp [buildStep, hd, hidx]
      · simp [buildStep, hd, hlen]
      · intro i hl
        simp only [buildStep, hd] at hl ⊢
        rcases Nat.lt_or_ge i (buildLayout (decls.take (j+1))).fields.length with hi | hi
        · rw [List.getElem_append_left hi]
          exact hcalc i hi
        · have hieq : i = (buildLayout (decls.take (j+1))).fields.length := by
            simp only [List.length_append, List.length_cons, List.length_nil] at hl
            omega
          subst hieq
          rw [List.getElem_concat_length, calcFieldOffset_normal, hlen]
          · exact hnewcalc
          · rfl
      · refine ⟨Nat.succ_pos _, ?_⟩
        simp only [buildStep, hd, Nat.add_sub_cancel]
        rw [specFieldOffset_follows_succ hdq hd, ← hA]
        rw [← contrib_eq s hflag hzero hdmem (j+1) hdq]
        by_cases hI : decls[j+1].isInstance = true
        all_goals simp [hI, FieldCore.getSize, hidx, followOffset, hlf]
        all_goals omega

theorem layoutInv_all (s : StructInst) (decls : List FieldDecl)
    (hflag : FlagImpliesInstance decls) (hzero : PlainDynamicSizeZero decls) :
    ∀ m, m ≤ decls.length → LayoutInv s decls m := by
  intro m
  induction m with
  | zero => intro _; exact layoutInv_zero s decls
  | succ k ihk =>
    intro h
    exact layoutInv_succ s decls hflag hzero k (by omega) (ihk (by omega))

/-- The code's flattened `calc_field_offset` agrees with the spec's
recursive offset resolution, for every laid-out field of every struct
type whose declarations satisfy the two Python field-kind facts. -/
theorem calcFieldOffset_eq_spec (s : StructInst) (decls : List FieldDecl)
    (hflag : FlagImpliesInstance decls) (hzero : PlainDynamicSizeZero decls)
    (i : Nat) (hi : i < (buildLayout decls).fields.length) :
    s.calcFieldOffset ((buildLayout decls).fields[i]) = specFieldOffset s decls i := by
  obtain ⟨-, hlen, hcalc, -⟩ := layoutInv_all s decls hflag hzero decls.length le_rfl
  simp only [List.take_length] at hcalc
  exact hcalc i hi

/-- C1: for every struct instance and every field whose offset is
"follows the previous field", `calc_field_offset` returns the statically
computed offset plus the current (per-instance, store-queried) sizes of
the dynamic fields accumulated before it — equivalently, it equals the
spec's recursive resolution `offset(prev) + current_size(prev)`; for the
A/B/C example layouts, `calc_field_offset(C) = 8` whenever A's and B's
current sizes sum to 8, whether A and B are static or dynamic; and
`calc_offset(f) = master_offset + calc_field_offset(f)`. -/
theorem C1_calc_field_offset :
    (∀ (s : StructInst) (decls : List FieldDecl),
       FlagImpliesInstance decls → PlainDynamicSizeZero decls →
       ∀ i (hi : i < (buildLayout decls).fields.length),
         s.calcFieldOffset ((buildLayout decls).fields[i]) = specFieldOffset s decls i) ∧
    (∀ master a b : Nat, a + b = 8 →
       StructInst.calcFieldOffset ⟨master, [], [(0, a), (1, b)]⟩
         (exampleFieldC exampleABCdynamic) = 8) ∧
    (∀ master b : Nat, 4 + b = 8 →
       StructInst.calcFieldOffset ⟨master, [], [(1, b)]⟩
         (exampleFieldC exampleABCmixed) = 8) ∧
    (∀ master : Nat,
       StructInst.calcFieldOffset ⟨master, [], []⟩
         (exampleFieldC exampleABCstatic) = 8) ∧
    (∀ (s : StructInst) (f : FieldInfo),
       s.calcOffset f = s.masterOffset + s.calcFieldOffset f) := by
  refine ⟨calcFieldOffset_eq_spec, ?_, ?_, ?_, fun s f => rfl⟩
  · intro master a b hab
    simp [exampleFieldC, exampleABCdynamic, buildLayout, buildStep, followOffset,
      StructInst.calcFieldOffset, FieldCore.getSize, StructInst.storedSize, List.lookup]
    omega
  · intro master b hb
    simp [exampleFieldC, exampleABCmixed, buildLayout, buildStep, followOffset,
      StructInst.calcFieldOffset, FieldCore.getSize, StructInst.storedSize, List.lookup]
    omega
  · intro master
    simp [exampleFieldC, exampleABCstatic, buildLayout, buildStep, followOffset,
      StructInst.calcFieldOffset, FieldCore.getSize, StructInst.storedSize, List.lookup]

/-- Witness for C1 at concrete inputs: the mixed A/B/C layout with B's
current size 4, instantiating every hypothesis of the claim theorem. -/
theorem C1_calc_field_offset_witness :
    (FlagImpliesInstance exampleABCmixed ∧ PlainDynamicSizeZero exampleABCmixed ∧
       2 < (buildLayout exampleABCmixed).fields.length) ∧
    StructInst.calcFieldOffset ⟨0, [], [(1, 4)]⟩ (exampleFieldC exampleABCmixed) = 8 ∧
    StructInst.calcFieldOffset ⟨0, [], [(0, 3), (1, 5)]⟩
      (exampleFieldC exampleABCdynamic) = 8 ∧
    StructInst.calcFieldOffset ⟨7, [], []⟩ (exampleFieldC exampleABCstatic) = 8 ∧
    StructInst.calcFieldOffset ⟨0, [], []⟩
      ((buildLayout exampleABCmixed).fields.getD 2 ⟨⟨0, 0, false, false, 0⟩, []⟩) =
      specFieldOffset ⟨0, [], []⟩ exampleABCmixed 2 :=
  ⟨⟨by unfold FlagImpliesInstance; decide, by unfold PlainDynamicSizeZero; decide, by decide⟩,
   C1_calc_field_offset.2.2.1 0 4 rfl,
   C1_calc_field_offset.2.1 0 3 5 rfl,
   C1_calc_field_offset.2.2.2.1 7,
   C1_calc_field_offset.1 ⟨0, [], []⟩ exampleABCmixed
     (by unfold FlagImpliesInstance; decide) (by unfold PlainDynamicSizeZero; decide)
     2 (by decide)⟩

/-- The code's shrink branch, rewritten: the removed bytes start at the
field's offset plus the *new* size. -/
theorem resizeDataBytes_shrink (offset oldSize newSize : Nat) (data : List Nat)
    (h : newSize < oldSize) :
    resizeDataBytes offset oldSize newSize data =
      data.take (offset + newSize) ++ data.drop (offset + oldSize) := by
  simp only [resizeDataBytes, if_pos h]
  rw [List.take_add, List.append_assoc]

/-- The code's grow branch: the zero bytes are inserted at the field's
offset plus the *old* size. -/
theorem resizeDataBytes_grow (offset oldSize newSize : Nat) (data : List Nat)
    (h : oldSize < newSize) :
    resizeDataBytes offset oldSize newSize data =
      data.take (offset + oldSize) ++
        (List.replicate (newSize - oldSize) 0 ++ data.drop (offset + oldSize)) := by
  have h' : ¬ (oldSize > newSize) := by omega
  simp only [resizeDataBytes, if_neg h', if_pos h]

theorem resizeDataBytes_same (offset oldSize : Nat) (data : List Nat) :
    resizeDataBytes offset oldSize oldSize data = data := by
  simp [resizeDataBytes]

/-- Frame facts of `_resize_data`: the prefix before the field is
unchanged and the suffix after the field's old end relocates intact. -/
theorem resizeDataBytes_frame (offset oldSize newSize : Nat) (data : List Nat)
    (hb : offset + oldSize ≤ data.length) :
    (resizeDataBytes offset oldSize newSize data).take offset = data.take offset ∧
    (resizeDataBytes offset oldSize newSize data).drop (offset + newSize) =
      data.drop (offset + oldSize) ∧
    (resizeDataBytes offset oldSize newSize data).length =
      data.length + newSize - oldSize := by
  rcases Nat.lt_trichotomy newSize oldSize with h | h | h
  · rw [resizeDataBytes_shrink offset oldSize newSize data h]
    refine ⟨?_, ?_, ?_⟩
    · rw [List.take_append_eq_append_take, List.take_take]
      have h1 : min offset (offset + newSize) = offset := by omega
      have h2 : offset - (data.take (offset + newSize)).length = 0 := by
        simp only [List.length_take]
        omega
      rw [h1, h2]
      simp
    · rw [List.drop_append_eq_append_drop]
      have h2 : (data.take (offset + newSize)).length = offset + newSize := by
        simp only [List.length_take]
        omega
      rw [h2]
      simp [List.drop_eq_nil_of_le, List.length_take]
    · simp only [List.length_append, List.length_take, List.length_drop]
      omega
  · subst h
    rw [resizeDataBytes_same]
    exact ⟨rfl, rfl, by omega⟩
  · rw [resizeDataBytes_grow offset oldSize newSize data h]
    refine ⟨?_, ?_, ?_⟩
    · rw [List.take_append_eq_append_take, List.take_take]
      have h1 : min offset (offset + oldSize) = offset := by omega
      have h2 : offset - (data.take (offset + oldSize)).length = 0 := by
        simp only [List.length_take]
        omega
      rw [h1, h2]
      simp
    · rw [← List.append_assoc, List.drop_append_eq_append_drop]
      have h2 : (data.take (offset + oldSize) ++
          List.replicate (newSize - oldSize) (0 : Nat)).length = offset + newSize := by
        simp only [List.length_append, List.length_take, List.length_replicate]
        omega
      rw [h2]
      simp [List.drop_eq_nil_of_le, h2]
    · simp only [List.length_append, List.length_take, List.length_replicate,
        List.length_drop]
      omega

/-- C2, counterexample: shrinking a dynamic field of current size 2 to
size 1 on the buffer `[1, 2, 3]` keeps the field's *first* byte and
drops its last byte — the code yields `[1, 3]` — whereas splicing out
`old_size - new_size = 1` byte "starting at the field's offset" (offset
0) would yield `[2, 3]`. -/
theorem C2_counterexample :
    (exOk? (ByteStructResize ⟨0, [1, 2, 3], [(0, 2)]⟩ shrinkExampleField 1)).map
        (fun t => t.data) = some [1, 3] ∧
    claimShrinkSplice 0 2 1 [1, 2, 3] = [2, 3] ∧
    ([1, 3] : List Nat) ≠ [2, 3] := by
  decide

/-- C2, amended: `resize(field, new_len, resize_bytes=True)` splices at
the *end* of the field's data — shrinking removes `(old-new)` bytes
starting at the field's offset plus `new_size`, growing inserts
`(new-old)` zero bytes at the field's offset plus `old_size`; bytes
before the field and all bytes after the field's old end are preserved
in value and relative order (the suffix merely relocates by the size
delta), and a trailing fixed 2-byte integer after a byte range grown
from 4 to 8 keeps its value while moving from offset 4 to offset 8. -/
theorem C2_resize_splice :
    (∀ (offset oldSize newSize : Nat) (data : List Nat), newSize < oldSize →
       resizeDataBytes offset oldSize newSize data =
         data.take (offset + newSize) ++ data.drop (offset + oldSize)) ∧
    (∀ (offset oldSize newSize : Nat) (data : List Nat), oldSize < newSize →
       resizeDataBytes offset oldSize newSize data =
         data.take (offset + oldSize) ++
           (List.replicate (newSize - oldSize) 0 ++ data.drop (offset + oldSize))) ∧
    (∀ (offset oldSize : Nat) (data : List Nat),
       resizeDataBytes offset oldSize oldSize data = data) ∧
    (∀ (offset oldSize newSize : Nat) (data : List Nat),
       offset + oldSize ≤ data.length →
       (resizeDataBytes offset oldSize newSize data).take offset = data.take offset ∧
       (resizeDataBytes offset oldSize newSize data).drop (offset + newSize) =
         data.drop (offset + oldSize) ∧
       (resizeDataBytes offset oldSize newSize data).length =
         data.length + newSize - oldSize) ∧
    ((exOk? (ByteStructResize ⟨0, [1, 2, 3, 4, 5, 6], [(0, 4)]⟩
        resizeExampleByteField 8)).map (fun t => t.data) =
          some [1, 2, 3, 4, 0, 0, 0, 0, 5, 6] ∧
     (exOk? (ByteStructResize ⟨0, [1, 2, 3, 4, 5, 6], [(0, 4)]⟩
        resizeExampleByteField 8)).map (fun t => t.calcOffset resizeExampleIntField) =
          some 8 ∧
     StructInst.calcOffset ⟨0, [1, 2, 3, 4, 5, 6], [(0, 4)]⟩ resizeExampleIntField = 4 ∧
     (exOk? (ByteStructResize ⟨0, [1, 2, 3, 4, 5, 6], [(0, 4)]⟩
        resizeExampleByteField 8)).map
          (fun t => intFieldGet t resizeExampleIntField true 2 .little) =
            some (some 1541) ∧
     intFieldGet ⟨0, [1, 2, 3, 4, 5, 6], [(0, 4)]⟩ resizeExampleIntField true 2 .little =
       some 1541) :=
  ⟨resizeDataBytes_shrink, resizeDataBytes_grow, resizeDataBytes_same,
   resizeDataBytes_frame, by decide⟩

/-- Witness for C2 at concrete inputs: a shrink, a grow, and the frame
facts on a concrete buffer, each obtained from the claim theorem. -/
theorem C2_resize_splice_witness :
    resizeDataBytes 1 2 1 [9, 8, 7, 6] = [9, 8, 6] ∧
    resizeDataBytes 1 1 3 [9, 8, 7] = [9, 8, 0, 0, 7] ∧
    ((resizeDataBytes 0 4 8 [1, 2, 3, 4, 5, 6]).take 0 = ([1, 2, 3, 4, 5, 6] : List Nat).take 0 ∧
     (resizeDataBytes 0 4 8 [1, 2, 3, 4, 5, 6]).drop 8 = ([1, 2, 3, 4, 5, 6] : List Nat).drop 4 ∧
     (resizeDataBytes 0 4 8 [1, 2, 3, 4, 5, 6]).length = 6 + 8 - 4) := by
  refine ⟨?_, ?_, C2_resize_splice.2.2.2.1 0 4 8 [1, 2, 3, 4, 5, 6] (by decide)⟩
  · rw [C2_resize_splice.1 1 2 1 [9, 8, 7, 6] (by decide)]
    decide
  · rw [C2_resize_splice.2.1 1 1 3 [9, 8, 7] (by decide)]
    decide

/-- `_to_absolute_indices` succeeds exactly when every wrapped index
lands in `[0, shape[k])`. -/
theorem toAbsoluteIndices_isSome_iff :
    ∀ (shape : List Nat) (index : List Int), shape.length = index.length →
    ((toAbsoluteIndices shape index).isSome ↔
      ∀ k, k < index.length →
        0 ≤ resolveIndex (shape.getD k 0) (index.getD k 0) ∧
        resolveIndex (shape.getD k 0) (index.getD k 0) < (shape.getD k 0 : Int))
  | [], [] => by
    intro _
    simp [toAbsoluteIndices]
  | [], i :: itail => by
    intro h
    simp at h
  | s :: stail, [] => by
    intro h
    simp at h
  | s :: stail, i :: itail => by
    intro h
    simp only [toAbsoluteIndices]
    by_cases hr : resolveIndex s i < 0 ∨ resolveIndex s i > (s : Int) - 1
    · rw [if_pos hr]
      simp only [Option.isSome_none, Bool.false_eq_true, false_iff, not_forall]
      refine ⟨0, by simp, ?_⟩
      simp only [List.getD_cons_zero]
      omega
    · rw [if_neg hr]
      have hsome : (Option.map (fun rest => (resolveIndex s i).toNat :: rest)
          (toAbsoluteIndices stail itail)).isSome = (toAbsoluteIndices stail itail).isSome := by
        cases toAbsoluteIndices stail itail <;> rfl
      rw [hsome]
      rw [toAbsoluteIndices_isSome_iff stail itail (by simpa using h)]
      constructor
      · intro htail k hk
        match k with
        | 0 =>
          simp only [List.getD_cons_zero]
          omega
        | k + 1 =>
          have := htail k (by simpa using hk)
          simpa using this
      · intro hall k hk
        have := hall (k + 1) (by simpa using hk)
        simpa using this

/-- The list returned by `_to_absolute_indices` holds exactly the
wrapped indices. -/
theorem toAbsoluteIndices_values :
    ∀ (shape : List Nat) (index : List Int) (abs : List Nat),
      toAbsoluteIndices shape index = some abs →
      abs.length = index.length ∧
      ∀ k, k < index.length →
        (abs.getD k 0 : Int) = resolveIndex (shape.getD k 0) (index.getD k 0)
  | _, [], abs => by
    intro h
    simp [toAbsoluteIndices] at h
    subst h
    simp
  | [], i :: itail, abs => by
    intro h
    simp [toAbsoluteIndices] at h
  | s :: stail, i :: itail, abs => by
    intro h
    simp only [toAbsoluteIndices] at h
    by_cases hr : resolveIndex s i < 0 ∨ resolveIndex s i > (s : Int) - 1
    · rw [if_pos hr] at h
      simp at h
    · rw [if_neg hr] at h
      rcases Option.map_eq_some'.mp h with ⟨rest, hrest, habs⟩
      obtain ⟨hlen, hvals⟩ := toAbsoluteIndices_values stail itail rest hrest
      subst habs
      refine ⟨by simpa using hlen, ?_⟩
      intro k hk
      match k with
      | 0 =>
        simp only [List.getD_cons_zero]
        omega
      | k + 1 =>
        have := hvals k (by simpa using hk)
        simpa using this

/-- The code's flat-index sum is standard row-major flattening. -/
theorem getArrayIndex_eq_rowMajor :
    ∀ (shape : List Nat) (index : List Nat), shape.length = index.length →
    getArrayIndex shape index = rowMajorFlat shape index
  | _, [] => by
    intro _
    simp [getArrayIndex, rowMajorFlat]
  | [], i :: itail => by
    intro h
    simp at h
  | s :: stail, [i] => by
    intro _
    simp [getArrayIndex, rowMajorFlat]
  | s :: stail, i :: j :: rest => by
    intro h
    have ih := getArrayIndex_eq_rowMajor stail (j :: rest) (by simpa using h)
    show getArrayIndex (s :: stail) (i :: j :: rest) =
      i * ((s :: stail).drop 1).prod + rowMajorFlat ((s :: stail).drop 1) (j :: rest)
    rw [List.drop_one, List.tail_cons, ← ih]
    simp only [getArrayIndex, List.length_cons, Nat.add_sub_cancel]
    rw [List.range_succ_eq_map, List.map_cons, List.sum_cons, List.map_map]
    have hmap : (List.range rest.length).map
        ((fun k => (i :: j :: rest).getD k 0 * (((s :: stail).drop (k + 1)).prod)) ∘
          Nat.succ) =
        (List.range rest.length).map
          (fun k => (j :: rest).getD k 0 * ((stail.drop (k + 1)).prod)) := rfl
    rw [hmap]
    simp only [List.getD_cons_zero, List.getD_cons_succ, List.drop_succ_cons,
      List.drop_zero]
    omega

/-- C5: array indexing first wraps every negative index entry by adding
the dimension, succeeds exactly when every resolved entry lies in
`[0, s_k)` (failing with a bounds error otherwise), and addresses the
element at the base offset plus the row-major flat index times the
element size; for shape (3,3) holding 1..9 row-major, `arr[1,2] = 6`
and `arr[-1,-1] = 9`. -/
theorem C5_array_indexing :
    (∀ (shape : List Nat) (index : List Int), shape.length = index.length →
       ((toAbsoluteIndices shape index).isSome ↔
         ∀ k, k < index.length →
           0 ≤ resolveIndex (shape.getD k 0) (index.getD k 0) ∧
           resolveIndex (shape.getD k 0) (index.getD k 0) < (shape.getD k 0 : Int))) ∧
    (∀ (shape : List Nat) (index : List Int) (abs : List Nat),
       toAbsoluteIndices shape index = some abs →
       abs.length = index.length ∧
       ∀ k, k < index.length →
         (abs.getD k 0 : Int) = resolveIndex (shape.getD k 0) (index.getD k 0)) ∧
    (∀ (shape index : List Nat), shape.length = index.length →
       getArrayIndex shape index = rowMajorFlat shape index) ∧
    (∀ (s : StructInst) (f : FieldInfo) (elemSize : Nat) (shape : List Nat)
       (index : List Int) (abs : List Nat),
       shape.length = index.length →
       toAbsoluteIndices shape index = some abs → abs ≠ [] →
       arrayProxyGetBytes s f elemSize shape index =
         readSlice s.data
           (s.masterOffset + (s.calcFieldOffset f + rowMajorFlat shape abs * elemSize))
           elemSize) ∧
    (arrayProxyGetBytes ⟨0, [1, 2, 3, 4, 5, 6, 7, 8, 9], []⟩ arrayExampleField 1
       [3, 3] [1, 2] = some [6] ∧
     arrayProxyGetBytes ⟨0, [1, 2, 3, 4, 5, 6, 7, 8, 9], []⟩ arrayExampleField 1
       [3, 3] [-1, -1] = some [9] ∧
     arrayProxyGetBytes ⟨0, [1, 2, 3, 4, 5, 6, 7, 8, 9], []⟩ arrayExampleField 1
       [3, 3] [3, 0] = none ∧
     arrayProxyGetBytes ⟨0, [1, 2, 3, 4, 5, 6, 7, 8, 9], []⟩ arrayExampleField 1
       [3, 3] [0, -4] = none) := by
  refine ⟨toAbsoluteIndices_isSome_iff, toAbsoluteIndices_values,
    getArrayIndex_eq_rowMajor, ?_, by decide⟩
  intro s f elemSize shape index abs hlen habs hne
  have hlen2 : shape.length = abs.length := by
    rw [hlen, (toAbsoluteIndices_values shape index abs habs).1]
  cases abs with
  | nil => exact absurd rfl hne
  | cons a t =>
    simp only [arrayProxyGetBytes, habs, List.isEmpty_cons, Bool.false_eq_true,
      if_false]
    rw [getArrayIndex_eq_rowMajor shape (a :: t) hlen2]

/-- Witness for C5 at concrete inputs: in-bounds wrap of `[-1,-1]`,
flat-index agreement, and the addressed offset for `arr[1,2]`. -/
theorem C5_array_indexing_witness :
    (toAbsoluteIndices [3, 3] [-1, -1]).isSome ∧
    getArrayIndex [3, 3] [2, 2] = rowMajorFlat [3, 3] [2, 2] ∧
    arrayProxyGetBytes ⟨0, [1, 2, 3, 4, 5, 6, 7, 8, 9], []⟩ arrayExampleField 1
      [3, 3] [1, 2] =
      readSlice [1, 2, 3, 4, 5, 6, 7, 8, 9]
        (0 + (0 + rowMajorFlat [3, 3] [1, 2] * 1)) 1 :=
  ⟨(C5_array_indexing.1 [3, 3] [-1, -1] rfl).mpr (by decide),
   C5_array_indexing.2.2.1 [3, 3] [2, 2] rfl,
   C5_array_indexing.2.2.2.1 ⟨0, [1, 2, 3, 4, 5, 6, 7, 8, 9], []⟩ arrayExampleField 1
     [3, 3] [1, 2] [1, 2] rfl (by decide) (by decide)⟩

/-- C6: `check_overflow()` fails iff the logical size (offset after the
last field) exceeds the physical buffer length, and on success it hands
the instance back unchanged; a plain scalar field read whose offset plus
field size stays within the physical length succeeds even on an
instance for which `check_overflow()` fails, as the example instance
(logical size 104, physical length 4) shows. -/
theorem C6_check_overflow :
    (∀ (decls : List FieldDecl) (s : StructInst),
       structSize decls s > s.data.length →
       checkOverflow decls s =
         .error "overflow detected: fields after resize take more size than the struct data") ∧
    (∀ (decls : List FieldDecl) (s : StructInst),
       structSize decls s ≤ s.data.length → checkOverflow decls s = .ok s) ∧
    (∀ (s : StructInst) (f : FieldInfo) (size : Nat),
       s.calcOffset f + size ≤ s.data.length →
       readSlice s.data (s.calcOffset f) size =
         some ((s.data.drop (s.calcOffset f)).take size)) ∧
    (structSize overflowExampleDecls overflowExampleInst = 104 ∧
     overflowExampleInst.data.length = 4 ∧
     exErr? (checkOverflow overflowExampleDecls overflowExampleInst) ≠ none ∧
     intFieldGet overflowExampleInst overflowExampleIntField true 4 .little = some 1) := by
  refine ⟨?_, ?_, ?_, by decide⟩
  · intro decls s h
    simp [checkOverflow, h]
  · intro decls s h
    simp [checkOverflow, Nat.not_lt.mpr h]
  · intro s f size h
    simp [readSlice, Nat.not_lt.mpr h]

/-- Witness for C6 at concrete inputs: the overflow example fails the
check, a healthy instance passes it unchanged, and the in-bounds read
succeeds. -/
theorem C6_check_overflow_witness :
    checkOverflow overflowExampleDecls overflowExampleInst =
      .error "overflow detected: fields after resize take more size than the struct data" ∧
    checkOverflow overflowExampleDecls ⟨0, [1, 0, 0, 0], [(1, 0)]⟩ =
      .ok ⟨0, [1, 0, 0, 0], [(1, 0)]⟩ ∧
    readSlice overflowExampleInst.data
      (overflowExampleInst.calcOffset overflowExampleIntField) 4 =
      some ((overflowExampleInst.data.drop
        (overflowExampleInst.calcOffset overflowExampleIntField)).take 4) :=
  ⟨C6_check_overflow.1 overflowExampleDecls overflowExampleInst (by decide),
   C6_check_overflow.2.1 overflowExampleDecls ⟨0, [1, 0, 0, 0], [(1, 0)]⟩ (by decide),
   C6_check_overflow.2.2.1 overflowExampleInst overflowExampleIntField 4 (by decide)⟩

/-! ### Scalar codec round trips (C4) -/

theorem length_toLEBytes : ∀ (n u : Nat), (toLEBytes n u).length = n
  | 0, _ => rfl
  | n + 1, u => by
    simp [toLEBytes, length_toLEBytes n (u / 256)]

theorem fromLE_toLE : ∀ (n u : Nat), fromLEBytes (toLEBytes n u) = u % 256 ^ n
  | 0, u => by simp [toLEBytes, fromLEBytes, Nat.mod_one]
  | n + 1, u => by
    simp only [toLEBytes, fromLEBytes, fromLE_toLE n (u / 256)]
    rw [pow_succ']
    have h1 : u / 256 % 256 ^ n = u % (256 * 256 ^ n) / 256 :=
      (Nat.mod_mul_right_div_self u 256 (256 ^ n)).symm
    have h2 : u % 256 = u % (256 * 256 ^ n) % 256 :=
      (Nat.mod_mod_of_dvd u ⟨256 ^ n, rfl⟩).symm
    rw [h1, h2]
    omega

/-- Packing then unpacking an integer restores every representable
value, for both signedness modes and both byte orders. -/
theorem intUnpack_intPack (signed : Bool) (nbytes : Nat) (bo : ByteOrder)
    (hn : 0 < nbytes) (v : Int) (hv : IntRepresentable signed nbytes v) :
    intUnpack signed nbytes bo (intPack nbytes bo v) = v := by
  have hle : (match bo with
      | ByteOrder.little => (intPack nbytes bo v)
      | ByteOrder.big => (intPack nbytes bo v).reverse) =
      toLEBytes nbytes ((v % ((2 : Int) ^ (8 * nbytes))).toNat) := by
    cases bo <;> simp [intPack, List.reverse_reverse]
  simp only [intUnpack]
  rw [hle]
  have h256 : (256 : Nat) ^ nbytes = 2 ^ (8 * nbytes) := by
    rw [show (256 : Nat) = 2 ^ 8 from rfl, ← pow_mul]
  have hMcast : (((2 : Nat) ^ (8 * nbytes) : Nat) : Int) = (2 : Int) ^ (8 * nbytes) := by
    push_cast
    ring
  have hMhcast : (((2 : Nat) ^ (8 * nbytes - 1) : Nat) : Int) =
      (2 : Int) ^ (8 * nbytes - 1) := by
    push_cast
    ring
  have hMM : (2 : Int) ^ (8 * nbytes) = 2 * (2 : Int) ^ (8 * nbytes - 1) := by
    have h8 : 8 * nbytes = (8 * nbytes - 1) + 1 := by omega
    conv_lhs => rw [h8]
    rw [pow_succ]
    exact mul_comm _ _
  have hBpos : (0 : Int) < (2 : Int) ^ (8 * nbytes - 1) := by positivity
  have hw0 : 0 ≤ v % ((2 : Int) ^ (8 * nbytes)) := Int.emod_nonneg v (by positivity)
  have hwlt : v % ((2 : Int) ^ (8 * nbytes)) < (2 : Int) ^ (8 * nbytes) :=
    Int.emod_lt_of_pos v (by positivity)
  have hfrom : fromLEBytes (toLEBytes nbytes ((v % ((2 : Int) ^ (8 * nbytes))).toNat)) =
      (v % ((2 : Int) ^ (8 * nbytes))).toNat := by
    rw [fromLE_toLE, h256, Nat.mod_eq_of_lt]
    omega
  rw [hfrom]
  cases hs : signed
  · rw [hs] at hv
    simp only [IntRepresentable, Bool.false_eq_true, if_false] at hv
    have hwv : v % ((2 : Int) ^ (8 * nbytes)) = v := Int.emod_eq_of_lt hv.1 hv.2
    rw [if_neg (by simp)]
    omega
  · rw [hs] at hv
    simp only [IntRepresentable, if_true] at hv
    rcases le_or_lt 0 v with h0 | h0
    · have hwv : v % ((2 : Int) ^ (8 * nbytes)) = v :=
        Int.emod_eq_of_lt h0 (by omega)
      rw [if_neg]
      · omega
      · simp only [true_and, not_le]
        omega
    · have hwv : v % ((2 : Int) ^ (8 * nbytes)) = v + (2 : Int) ^ (8 * nbytes) := by
        have h1 : (v + (2 : Int) ^ (8 * nbytes)) % ((2 : Int) ^ (8 * nbytes)) =
            v % ((2 : Int) ^ (8 * nbytes)) := by
          simpa using @Int.add_mul_emod_self_left v ((2 : Int) ^ (8 * nbytes)) 1
        rw [← h1]
        exact Int.emod_eq_of_lt (by omega) (by omega)
      rw [if_pos]
      · omega
      · exact ⟨rfl, by omega⟩

theorem packValue_eq (off : Nat) (payload : List Nat) :
    packValue off payload = List.replicate off 0 ++ payload := by
  simp [packValue, writeBytes, List.take_replicate, List.drop_replicate]

theorem readSlice_packValue (off : Nat) (payload : List Nat) :
    readSlice (packValue off payload) off payload.length = some payload := by
  rw [packValue_eq]
  simp [readSlice]

theorem intPack_length (nbytes : Nat) (bo : ByteOrder) (v : Int) :
    (intPack nbytes bo v).length = nbytes := by
  cases bo <;> simp [intPack, length_toLEBytes]

theorem floatPatPack_length (nbytes : Nat) (bo : ByteOrder) (pat : Nat) :
    (floatPatPack nbytes bo pat).length = nbytes := by
  cases bo <;> simp [floatPatPack, length_toLEBytes]

theorem unpackBytesInt_packValue (signed : Bool) (nbytes : Nat) (bo : ByteOrder)
    (off : Nat) (hn : 0 < nbytes) (v : Int) (hv : IntRepresentable signed nbytes v) :
    unpackBytesInt signed nbytes bo off (packValue off (intPack nbytes bo v)) = some v := by
  have h := readSlice_packValue off (intPack nbytes bo v)
  rw [intPack_length] at h
  unfold unpackBytesInt
  rw [h, Option.map_some']
  exact congrArg some (intUnpack_intPack signed nbytes bo hn v hv)

theorem unpackBytesString_packValue (L off : Nat) (s : List Nat) (h : s.length = L) :
    unpackBytesString L off (packValue off (stringPack L s)) = some s := by
  have hsp : stringPack L s = s := by
    subst h
    simp [stringPack]
  subst h
  rw [hsp]
  exact readSlice_packValue off s

theorem boolUnpack_boolPack (nbytes : Nat) (bo : ByteOrder) (hn : 0 < nbytes)
    (b : Bool) : boolUnpack nbytes bo (boolPack nbytes bo b) = b := by
  have hrep : IntRepresentable false nbytes (if b = true then (1 : Int) else 0) := by
    have h2 : (2 : Int) ^ (8 * 1) ≤ (2 : Int) ^ (8 * nbytes) :=
      pow_le_pow_right₀ (by norm_num) (by omega)
    unfold IntRepresentable
    simp only [Bool.false_eq_true, if_false]
    cases b <;> constructor <;> simp <;> omega
  unfold boolUnpack boolPack
  rw [intUnpack_intPack false nbytes bo hn _ hrep]
  cases b <;> simp

theorem floatPatUnpack_floatPatPack (nbytes : Nat) (bo : ByteOrder) (pat : Nat)
    (hp : pat < 2 ^ (8 * nbytes)) :
    floatPatUnpack nbytes bo (floatPatPack nbytes bo pat) = pat := by
  have h256 : (256 : Nat) ^ nbytes = 2 ^ (8 * nbytes) := by
    rw [show (256 : Nat) = 2 ^ 8 from rfl, ← pow_mul]
  cases bo <;>
    simp [floatPatPack, floatPatUnpack, List.reverse_reverse, fromLE_toLE, h256,
      Nat.mod_eq_of_lt hp]

/-- C4: for every scalar field kind — integers of any byte width (in
particular 1/2/4/8), signed or unsigned, little- or big-endian; boolean;
fixed-length string; float/double (modelled at the IEEE-754 bit-pattern
level) — and every value representable by the field,
`unpack_bytes(pack_value(v, f), f) = v`, through the real `pack_value`
plumbing (zero buffer of `computed_offset + size` bytes, payload written
at the field's offset) and `unpack_bytes` plumbing (bounds-checked slice
at the field's offset). -/
theorem C4_pack_unpack_roundtrip :
    (∀ (signed : Bool) (nbytes : Nat) (bo : ByteOrder) (off : Nat), 0 < nbytes →
       ∀ v : Int, IntRepresentable signed nbytes v →
       unpackBytesInt signed nbytes bo off (packValue off (intPack nbytes bo v)) =
         some v) ∧
    (∀ (L off : Nat) (s : List Nat), s.length = L →
       unpackBytesString L off (packValue off (stringPack L s)) = some s) ∧
    (∀ (nbytes : Nat) (bo : ByteOrder) (off : Nat), 0 < nbytes → ∀ b : Bool,
       (readSlice (packValue off (boolPack nbytes bo b)) off nbytes).map
         (boolUnpack nbytes bo) = some b) ∧
    (∀ (nbytes : Nat) (bo : ByteOrder) (off : Nat) (pat : Nat),
       pat < 2 ^ (8 * nbytes) →
       (readSlice (packValue off (floatPatPack nbytes bo pat)) off nbytes).map
         (floatPatUnpack nbytes bo) = some pat) := by
  refine ⟨?_, fun L off s h => unpackBytesString_packValue L off s h, ?_, ?_⟩
  · intro signed nbytes bo off hn v hv
    exact unpackBytesInt_packValue signed nbytes bo off hn v hv
  · intro nbytes bo off hn b
    have h := readSlice_packValue off (boolPack nbytes bo b)
    rw [show (boolPack nbytes bo b).length = nbytes from intPack_length nbytes bo _] at h
    rw [h, Option.map_some']
    exact congrArg some (boolUnpack_boolPack nbytes bo hn b)
  · intro nbytes bo off pat hp
    have h := readSlice_packValue off (floatPatPack nbytes bo pat)
    rw [floatPatPack_length] at h
    rw [h, Option.map_some']
    exact congrArg some (floatPatUnpack_floatPatPack nbytes bo pat hp)

/-- Witness for C4 at boundary values: int8 min/max, zero, -1, uint8
max, int32 big-endian min, a 3-byte string, a boolean, and a 32-bit
float pattern, each through the claim theorem. -/
theorem C4_pack_unpack_roundtrip_witness :
    unpackBytesInt true 1 .little 0 (packValue 0 (intPack 1 .little (-128))) =
      some (-128) ∧
    unpackBytesInt true 1 .little 0 (packValue 0 (intPack 1 .little 127)) = some 127 ∧
    unpackBytesInt true 2 .big 0 (packValue 0 (intPack 2 .big 0)) = some 0 ∧
    unpackBytesInt true 4 .big 4 (packValue 4 (intPack 4 .big (-2147483648))) =
      some (-2147483648) ∧
    unpackBytesInt true 8 .little 0 (packValue 0 (intPack 8 .little (-1))) = some (-1) ∧
    unpackBytesInt false 1 .little 0 (packValue 0 (intPack 1 .little 255)) = some 255 ∧
    unpackBytesString 3 0 (packValue 0 (stringPack 3 [97, 98, 99])) =
      some [97, 98, 99] ∧
    (readSlice (packValue 0 (boolPack 4 .little true)) 0 4).map
      (boolUnpack 4 .little) = some true ∧
    (readSlice (packValue 0 (floatPatPack 4 .little 2147483648)) 0 4).map
      (floatPatUnpack 4 .little) = some 2147483648 :=
  ⟨C4_pack_unpack_roundtrip.1 true 1 .little 0 (by decide) (-128) (by unfold IntRepresentable; decide),
   C4_pack_unpack_roundtrip.1 true 1 .little 0 (by decide) 127 (by unfold IntRepresentable; decide),
   C4_pack_unpack_roundtrip.1 true 2 .big 0 (by decide) 0 (by unfold IntRepresentable; decide),
   C4_pack_unpack_roundtrip.1 true 4 .big 4 (by decide) (-2147483648) (by unfold IntRepresentable; decide),
   C4_pack_unpack_roundtrip.1 true 8 .little 0 (by decide) (-1) (by unfold IntRepresentable; decide),
   C4_pack_unpack_roundtrip.1 false 1 .little 0 (by decide) 255 (by unfold IntRepresentable; decide),
   C4_pack_unpack_roundtrip.2.1 3 0 [97, 98, 99] rfl,
   C4_pack_unpack_roundtrip.2.2.1 4 .little 0 (by decide) true,
   C4_pack_unpack_roundtrip.2.2.2 4 .little 0 2147483648 (by decide)⟩

theorem minSizeInv_one (decls : List FieldDecl) (h : 0 < decls.length) :
    MinSizeInv decls 1 := by
  obtain ⟨d0, rest, rfl⟩ : ∃ d0 rest, decls = d0 :: rest := by
    cases decls with
    | nil => simp at h
    | cons a l => exact ⟨a, l, rfl⟩
  cases hd0 : d0.offset with
  | some n =>
    refine ⟨⟨0, d0.size, d0.isInstance, d0.sizeIncludesComputation, n⟩, [],
      ?_, ?_, rfl, rfl, rfl, ?_, rfl⟩
    · simp [buildLayout, buildStep, hd0]
    · simp [buildLayout, buildStep, hd0]
    · simp [specStaticOffset, hd0]
  | none =>
    refine ⟨⟨0, d0.size, d0.isInstance, d0.sizeIncludesComputation, 0⟩, [],
      ?_, ?_, rfl, rfl, rfl, ?_, rfl⟩
    · simp [buildLayout, buildStep, hd0, followOffset]
    · simp [buildLayout, buildStep, hd0, followOffset]
    · simp [specStaticOffset, hd0]

theorem minSizeInv_succ (decls : List FieldDecl) (m : Nat)
    (hflag : FlagImpliesInstance decls)
    (hm1 : 1 ≤ m) (hm : m < decls.length)
    (hfollow : (decls.getD m defaultDecl).offset = none)
    (ih : MinSizeInv decls m) : MinSizeInv decls (m + 1) := by
  obtain ⟨lf, prev, hlast, hinst, hsize, hinstf, hflagf, hco, hsum⟩ := ih
  have hgd : decls.getD m defaultDecl = decls[m] := by
    rw [List.getD_eq_getElem?_getD, List.getElem?_eq_getElem hm]
    rfl
  have hd : decls[m].offset = none := by rwa [hgd] at hfollow
  obtain ⟨k, rfl⟩ : ∃ k, m = k + 1 := ⟨m - 1, by omega⟩
  have hk : k < decls.length := by omega
  have hgdk : decls.getD k defaultDecl = decls[k] := by
    rw [List.getD_eq_getElem?_getD, List.getElem?_eq_getElem hk]
    rfl
  simp only [Nat.add_sub_cancel] at hsize hinstf hflagf hco hsum
  refine ⟨⟨(buildLayout (decls.take (k+1))).nextIdx, decls[k+1].size,
    decls[k+1].isInstance, decls[k+1].sizeIncludesComputation,
    followOffset (buildLayout (decls.take (k+1)))⟩,
    prev ++ (if lf.isInstance = true then [lf] else []),
    ?_, ?_, ?_, ?_, ?_, ?_, ?_⟩
  · rw [buildLayout_take_succ decls (k+1) hm]
    simp [buildStep, hd]
  · rw [buildLayout_take_succ decls (k+1) hm]
    simp [buildStep, hd, hinst]
  · simp only [Nat.add_sub_cancel]
    rw [List.getD_eq_getElem?_getD, List.getElem?_eq_getElem hm]
    rfl
  · simp only [Nat.add_sub_cancel]
    rw [List.getD_eq_getElem?_getD, List.getElem?_eq_getElem hm]
    rfl
  · simp only [Nat.add_sub_cancel]
    rw [List.getD_eq_getElem?_getD, List.getElem?_eq_getElem hm]
    rfl
  · simp only [Nat.add_sub_cancel]
    show followOffset (buildLayout (decls.take (k+1))) = specStaticOffset decls (k+1)
    rw [specStaticOffset]
    simp only [followOffset, hlast]
    rw [hco, hflagf, hsize, hgdk, List.getElem?_eq_getElem hk]
  · simp only [Nat.add_sub_cancel]
    rw [flaggedSum]
    rw [List.filter_append, List.map_append, List.sum_append, hsum]
    simp only [List.getElem?_eq_getElem hk]
    have hsize' : lf.size = decls[k].size := by rw [hsize, hgdk]
    have hinstf' : lf.isInstance = decls[k].isInstance := by rw [hinstf, hgdk]
    have hflagf' : lf.sizeIncludesComputation = decls[k].sizeIncludesComputation := by
      rw [hflagf, hgdk]
    have hfi : decls[k].sizeIncludesComputation = true → decls[k].isInstance = true :=
      hflag decls[k] (List.getElem_mem hk)
    by_cases hf : decls[k].sizeIncludesComputation = true
    · have hi : lf.isInstance = true := by rw [hinstf']; exact hfi hf
      have hlff : lf.sizeIncludesComputation = true := by rw [hflagf']; exact hf
      rw [if_pos hi, if_pos hf]
      simp [List.filter_cons, hlff, hsize']
    · have hlff : ¬ (lf.sizeIncludesComputation = true) := by rw [hflagf']; exact hf
      rw [if_neg hf]
      by_cases hi : lf.isInstance = true
      · rw [if_pos hi]
        simp [List.filter_cons, hlff]
      · rw [if_neg hi]
        simp

/-- For struct types whose non-first fields all use "follows previous"
offsets, `min_size` equals the claim's formula. -/
theorem minSize_eq_claim (decls : List FieldDecl)
    (hne : 0 < decls.length)
    (hflag : FlagImpliesInstance decls)
    (hfollow : ∀ i, 0 < i → i < decls.length → (decls.getD i defaultDecl).offset = none) :
    minSize decls = claimMinSize decls := by
  have hinv : ∀ m, 1 ≤ m → m ≤ decls.length → MinSizeInv decls m := by
    intro m
    induction m with
    | zero => intro h _; omega
    | succ k ihk =>
      intro _ h2
      rcases Nat.eq_zero_or_pos k with hk0 | hkpos
      · subst hk0
        exact minSizeInv_one decls hne
      · exact minSizeInv_succ decls k hflag hkpos (by omega)
          (hfollow k hkpos (by omega)) (ihk (by omega) (by omega))
  obtain ⟨lf, prev, hlast, hinst, hsize, hinstf, hflagf, hco, hsum⟩ :=
    hinv decls.length (by omega) le_rfl
  rw [List.take_length] at hlast hinst
  simp only [minSize, claimMinSize]
  rw [hlast]
  simp only [hinst]
  have hgd : decls.getD (decls.length - 1) defaultDecl = decls[decls.length - 1] := by
    rw [List.getD_eq_getElem?_getD, List.getElem?_eq_getElem (by omega)]
    rfl
  cases hi : lf.isInstance with
  | true =>
    simp only [eq_self_iff_true, if_true]
    rw [List.dropLast_concat]
    rw [hsum, hco, hsize]
  | false =>
    simp only [Bool.false_eq_true, if_false, List.append_nil]
    rw [hsum, hco, hsize]

/-- C7, counterexample: for a struct declaring a nested-struct field
(dynamic, flagged, static size 4) followed by a 4-byte static field at
literal offset 0, the code computes `min_size = 4` (the literal offset
resets the accumulated instance fields, so the flagged size is not
added), while the claim's "plus the static sizes of all flagged dynamic
fields" gives 8. -/
theorem C7_counterexample :
    minSize minSizeCounterexampleDecls = 4 ∧
    claimMinSize minSizeCounterexampleDecls = 8 ∧
    minSize minSizeCounterexampleDecls ≠ claimMinSize minSizeCounterexampleDecls := by
  decide

/-- C7, amended: when every field after the first uses "follows
previous" offsets (no literal-offset field resets the accumulator),
`min_size` equals the last field's static offset plus the last field's
static size, plus the static sizes of all *other* dynamic fields
flagged as always contributing to size (nested-struct fields, whose
static size is their inner type's `min_size`), with plain dynamic
fields contributing 0; a field with a literal integer offset drops all
earlier flagged fields from the sum. -/
theorem C7_min_size :
    ∀ (decls : List FieldDecl), 0 < decls.length →
      FlagImpliesInstance decls →
      (∀ i, 0 < i → i < decls.length → (decls.getD i defaultDecl).offset = none) →
      minSize decls = claimMinSize decls :=
  minSize_eq_claim

/-- Witness for C7 at a concrete layout: a 4-byte integer, a flagged
nested-struct field of static size 4, and a plain dynamic field; the
code's `min_size` equals the claim formula (both 8). -/
theorem C7_min_size_witness :
    minSize [⟨some 0, 4, false, false⟩, ⟨none, 4, true, true⟩, ⟨none, 0, true, false⟩] =
      claimMinSize
        [⟨some 0, 4, false, false⟩, ⟨none, 4, true, true⟩, ⟨none, 0, true, false⟩] ∧
    minSize [⟨some 0, 4, false, false⟩, ⟨none, 4, true, true⟩, ⟨none, 0, true, false⟩] = 8 :=
  ⟨C7_min_size [⟨some 0, 4, false, false⟩, ⟨none, 4, true, true⟩, ⟨none, 0, true, false⟩]
     (by decide) (by unfold FlagImpliesInstance; decide)
     (by
       intro i h1 h2
       simp only [List.length_cons, List.length_nil] at h2
       interval_cases i <;> decide),
   by decide⟩

/-- C8: the code contradicts its own docstring ("the string will either
be cut off with a longer string or the field will be set partially,
with a shorter string").  Assigning a 6-character string ("abcdef") to
a `StringField(length=4)` raises an `AssertionError` instead of
truncating to "abcd"; a 2-character string likewise raises instead of
partially writing; only variable-length string fields auto-resize
(store and buffer) to the assigned length. -/
theorem C8_string_field :
    stringSetValue ⟨0, [0, 0, 0, 0], []⟩ fixedStringField
        [97, 98, 99, 100, 101, 102] =
      .error "failed to set value: string is length is not equal to size characters" ∧
    stringSetValue ⟨0, [0, 0, 0, 0], []⟩ fixedStringField [97, 98] =
      .error "failed to set value: string is length is not equal to size characters" ∧
    (claimStringSetFixed ⟨0, [0, 0, 0, 0], []⟩ fixedStringField
        [97, 98, 99, 100, 101, 102]).data = [97, 98, 99, 100] ∧
    exOk? (stringSetValue ⟨0, [0, 0, 0, 0], []⟩ fixedStringField
        [97, 98, 99, 100]) =
      some ⟨0, [97, 98, 99, 100], []⟩ ∧
    (exOk? (stringSetValue ⟨0, [], []⟩ varStringField [97, 98, 99])).map
        (fun t => (t.data, t.storedSize 0)) =
      some ([97, 98, 99], 3) :=
  ⟨rfl, rfl, rfl, rfl, rfl⟩

/-- C9, counterexample: on a `VariableField` with no child type
assigned, the getter does *not* fail — it returns `None`
(`if not data.get('child'): return None`), so "both getting and setting
fail" is false; only setting raises the no-type-assigned error. -/
theorem C9_counterexample :
    variableFieldGet none ⟨0, [], []⟩ 0 = .ok none ∧
    exErr? (variableFieldGet none ⟨0, [], []⟩ 0) = none :=
  ⟨rfl, rfl⟩

/-- C9, amended: before a concrete child type has been assigned,
*setting* a variable field fails with the "does not contain any field"
(no type assigned) error, while *getting* returns `None` without
failing. -/
theorem C9_variable_field_untyped :
    ∀ (s : StructInst) (size : Nat) (value : List Nat),
      variableFieldGet none s size = .ok none ∧
      variableFieldSet none s value =
        .error "VariableField does not contain any field, call resize() with the field instance you want to store" :=
  fun _ _ _ => ⟨rfl, rfl⟩

/-- The proxy's element loop re-resolves the shared `computed_offset`
before every access, so the *value* it reads never depends on the
offset left behind by another instance's operation. -/
theorem readElemsFrom_eo (c base i : Nat) (data : List Nat) (eo1 eo2 : Nat) :
    (readElemsFrom base i c data eo1).map Prod.fst =
    (readElemsFrom base i c data eo2).map Prod.fst := by
  cases c with
  | zero => rfl
  | succ c => rfl

theorem arrayToNumpy_eo (inst : ArrayInst) (eo1 eo2 : Nat) :
    (arrayToNumpy inst eo1).map Prod.fst = (arrayToNumpy inst eo2).map Prod.fst :=
  readElemsFrom_eo _ _ _ _ eo1 eo2

/-- C3: assigning or resizing the dynamic array field on instance A
never changes instance B's buffer, store, observable size, or the array
B reads back — even though A's operation mutates the shared element
descriptor's `computed_offset`; and after `a.arr = [1,2,3]`,
`b.arr = [4,5,6,7]`, A reads back `[1,2,3]`, B reads back `[4,5,6,7]`,
with buffer lengths 12 and 16. -/
theorem C3_instance_isolation :
    (∀ (w : ArrayWorld) (v : List Int) (w' : ArrayWorld),
       worldSetA w v = some w' →
       w'.b = w.b ∧
       arrayGetSize w'.b = arrayGetSize w.b ∧
       (arrayToNumpy w'.b w'.elemOffset).map Prod.fst =
         (arrayToNumpy w.b w.elemOffset).map Prod.fst) ∧
    (∀ (w : ArrayWorld) (k : Nat) (rb : Bool),
       (worldResizeA w k rb).b = w.b ∧
       arrayGetSize (worldResizeA w k rb).b = arrayGetSize w.b ∧
       (arrayToNumpy (worldResizeA w k rb).b
           (worldResizeA w k rb).elemOffset).map Prod.fst =
         (arrayToNumpy w.b w.elemOffset).map Prod.fst) ∧
    (((worldSetA ⟨⟨[], none⟩, ⟨[], none⟩, 0⟩ [1, 2, 3]).bind
        (fun w1 => worldSetB w1 [4, 5, 6, 7])).bind
        (fun w2 => ((arrayToNumpy w2.a w2.elemOffset).map Prod.fst).bind
          (fun va => ((arrayToNumpy w2.b w2.elemOffset).map Prod.fst).map
            (fun vb => (va, vb, w2.a.data.length, w2.b.data.length)))) =
      some ([1, 2, 3], [4, 5, 6, 7], 12, 16)) := by
  refine ⟨?_, ?_, by decide⟩
  · intro w v w' h
    unfold worldSetA at h
    cases hs : arraySetValue w.a w.elemOffset v with
    | none =>
      rw [hs] at h
      exact absurd h (by simp)
    | some p =>
      rw [hs] at h
      cases p with
      | mk a' eo' =>
        injection h with h'
        subst h'
        exact ⟨rfl, rfl, arrayToNumpy_eo w.b eo' w.elemOffset⟩
  · intro w k rb
    exact ⟨rfl, rfl, arrayToNumpy_eo w.b w.elemOffset w.elemOffset⟩

/-- Witness for C3 at a concrete input: setting `[9]` on a fresh A next
to a B holding `[5]` leaves B exactly as it was. -/
theorem C3_instance_isolation_witness :
    worldSetA ⟨⟨[], none⟩, ⟨[5, 0, 0, 0], some ⟨some 1, 4⟩⟩, 0⟩ [9] =
      some ⟨⟨[9, 0, 0, 0], some ⟨some 1, 4⟩⟩, ⟨[5, 0, 0, 0], some ⟨some 1, 4⟩⟩, 0⟩ ∧
    (⟨⟨[9, 0, 0, 0], some ⟨some 1, 4⟩⟩, ⟨[5, 0, 0, 0], some ⟨some 1, 4⟩⟩, 0⟩ :
        ArrayWorld).b =
      (⟨⟨[], none⟩, ⟨[5, 0, 0, 0], some ⟨some 1, 4⟩⟩, 0⟩ : ArrayWorld).b :=
  ⟨by decide,
   (C3_instance_isolation.1 ⟨⟨[], none⟩, ⟨[5, 0, 0, 0], some ⟨some 1, 4⟩⟩, 0⟩ [9]
     ⟨⟨[9, 0, 0, 0], some ⟨some 1, 4⟩⟩, ⟨[5, 0, 0, 0], some ⟨some 1, 4⟩⟩, 0⟩
     (by decide)).1⟩

theorem Heap.read_alloc_old (h : Heap) (v : List Nat) (r : Nat)
    (hr : r < h.bufs.length) : (h.alloc v).1.read r = h.read r := by
  simp only [Heap.alloc, Heap.read]
  rw [List.getD_eq_getElem?_getD, List.getD_eq_getElem?_getD,
    List.getElem?_append, if_pos hr]

theorem Heap.read_alloc_new (h : Heap) (v : List Nat) :
    (h.alloc v).1.read (h.alloc v).2 = v := by
  simp only [Heap.alloc, Heap.read]
  rw [List.getD_eq_getElem?_getD, List.getElem?_concat_length]
  rfl

theorem Heap.read_writeByte_ne (h : Heap) (r r' i b : Nat) (hne : r' ≠ r) :
    (h.writeByte r i b).read r' = h.read r' := by
  simp only [Heap.writeByte, Heap.read]
  rw [List.getD_eq_getElem?_getD, List.getD_eq_getElem?_getD,
    List.getElem?_set_ne (by omega)]
  rw [← List.getD_eq_getElem?_getD]

/-- C10: reading a byte-range field (via the field getter or the
proxy's `to_bytearray()`) returns a *fresh* bytearray holding a copy of
the field's bytes: the returned object is distinct from the instance's
buffer, the buffer is untouched by the read, mutating the returned
bytearray leaves the buffer unchanged, and only reassigning the field
or writing through the proxy's item assignment mutates the buffer (and
no other heap object). -/
theorem C10_bytearray_fresh_copy :
    (∀ (h : Heap) (inst : HeapInst) (h' : Heap) (r : Nat),
       inst.dataRef < h.bufs.length →
       byteArrayGetValue h inst = .ok (h', r) →
       r ≠ inst.dataRef ∧
       h'.read inst.dataRef = h.read inst.dataRef ∧
       h'.read r = ((h.read inst.dataRef).drop
         (inst.masterOffset + inst.fieldOffset)).take inst.fieldSize ∧
       (∀ i b : Nat, (h'.writeByte r i b).read inst.dataRef = h.read inst.dataRef)) ∧
    (∀ (h : Heap) (inst : HeapInst) (h' : Heap) (r : Nat),
       inst.dataRef < h.bufs.length →
       proxyToBytearray h inst = .ok (h', r) →
       r ≠ inst.dataRef ∧
       h'.read inst.dataRef = h.read inst.dataRef ∧
       (∀ i b : Nat, (h'.writeByte r i b).read inst.dataRef = h.read inst.dataRef)) ∧
    (∀ (h : Heap) (inst : HeapInst) (index : Int) (value : Nat) (h' : Heap),
       proxySetItem h inst index value = .ok h' →
       ∀ x, x ≠ inst.dataRef → h'.read x = h.read x) ∧
    (∀ (h : Heap) (inst : HeapInst) (value : List Nat) (h' : Heap),
       byteArraySetValue h inst value = .ok h' →
       ∀ x, x ≠ inst.dataRef → h'.read x = h.read x) := by
  have hget : ∀ (h : Heap) (inst : HeapInst) (h' : Heap) (r : Nat),
      inst.dataRef < h.bufs.length →
      Except.ok (ε := String) (h.alloc (((h.read inst.dataRef).drop
        (inst.masterOffset + inst.fieldOffset)).take inst.fieldSize)) = .ok (h', r) →
      r ≠ inst.dataRef ∧
      h'.read inst.dataRef = h.read inst.dataRef ∧
      h'.read r = ((h.read inst.dataRef).drop
        (inst.masterOffset + inst.fieldOffset)).take inst.fieldSize ∧
      (∀ i b : Nat, (h'.writeByte r i b).read inst.dataRef = h.read inst.dataRef) := by
    intro h inst h' r hr hok
    have hp : (h', r) = h.alloc (((h.read inst.dataRef).drop
        (inst.masterOffset + inst.fieldOffset)).take inst.fieldSize) := by
      injection hok with h1
      exact h1.symm
    have hh' : h' = (h.alloc (((h.read inst.dataRef).drop
        (inst.masterOffset + inst.fieldOffset)).take inst.fieldSize)).1 :=
      congrArg Prod.fst hp
    have hrr : r = h.bufs.length := congrArg Prod.snd hp
    subst hh'
    subst hrr
    refine ⟨by omega, Heap.read_alloc_old h _ _ hr, ?_, ?_⟩
    · exact Heap.read_alloc_new h _
    · intro i b
      rw [Heap.read_writeByte_ne _ _ _ _ _ (by omega)]
      exact Heap.read_alloc_old h _ _ hr
  refine ⟨?_, ?_, ?_, ?_⟩
  · intro h inst h' r hr hok
    unfold byteArrayGetValue at hok
    by_cases hb : inst.masterOffset + inst.fieldOffset + inst.fieldSize >
        (h.read inst.dataRef).length
    · rw [if_pos hb] at hok
      exact absurd hok (by simp)
    · rw [if_neg hb] at hok
      exact hget h inst h' r hr hok
  · intro h inst h' r hr hok
    unfold proxyToBytearray at hok
    by_cases hb : inst.masterOffset + inst.fieldOffset + inst.fieldSize >
        (h.read inst.dataRef).length
    · rw [if_pos hb] at hok
      exact absurd hok (by simp)
    · rw [if_neg hb] at hok
      obtain ⟨h1, h2, _, h4⟩ := hget h inst h' r hr hok
      exact ⟨h1, h2, h4⟩
  · intro h inst index value h' hok
    unfold proxySetItem at hok
    by_cases hb : inst.masterOffset + inst.fieldOffset + inst.fieldSize >
        (h.read inst.dataRef).length
    · rw [if_pos hb] at hok
      exact absurd hok (by simp)
    · rw [if_neg hb] at hok
      cases habs : toAbsoluteIndices [inst.fieldSize] [index] with
      | none =>
        rw [habs] at hok
        exact absurd hok (by simp)
      | some abs =>
        rw [habs] at hok
        cases abs with
        | nil => exact absurd hok (by simp)
        | cons i rest =>
          injection hok with h1
          subst h1
          intro x hx
          exact Heap.read_writeByte_ne h inst.dataRef x _ _ hx
  · intro h inst value h' hok
    unfold byteArraySetValue at hok
    by_cases hl : value.length ≠ inst.fieldSize
    · rw [if_pos hl] at hok
      exact absurd hok (by simp)
    · rw [if_neg hl] at hok
      by_cases hb : inst.masterOffset + inst.fieldOffset + inst.fieldSize >
          (h.read inst.dataRef).length
      · rw [if_pos hb] at hok
        exact absurd hok (by simp)
      · rw [if_neg hb] at hok
        injection hok with h1
        subst h1
        intro x hx
        simp only [Heap.read]
        rw [List.getD_eq_getElem?_getD, List.getD_eq_getElem?_getD,
          List.getElem?_set_ne (by omega)]
        rw [← List.getD_eq_getElem?_getD]

/-- Witness for C10 at a concrete heap: one buffer `[1,2,3,4]`, a
byte-range field covering it; the getter returns a fresh reference, and
mutating the copy leaves the buffer intact. -/
theorem C10_bytearray_fresh_copy_witness :
    (1 : Nat) ≠ (0 : Nat) ∧
    Heap.read ⟨[[1, 2, 3, 4], [1, 2, 3, 4]]⟩ 0 = Heap.read ⟨[[1, 2, 3, 4]]⟩ 0 ∧
    Heap.read ⟨[[1, 2, 3, 4], [1, 2, 3, 4]]⟩ 1 =
      ((Heap.read ⟨[[1, 2, 3, 4]]⟩ 0).drop (0 + 0)).take 4 ∧
    (∀ i b : Nat,
      (Heap.writeByte ⟨[[1, 2, 3, 4], [1, 2, 3, 4]]⟩ 1 i b).read 0 =
        Heap.read ⟨[[1, 2, 3, 4]]⟩ 0) :=
  C10_bytearray_fresh_copy.1 ⟨[[1, 2, 3, 4]]⟩ ⟨0, 0, 0, 4⟩
    ⟨[[1, 2, 3, 4], [1, 2, 3, 4]]⟩ 1 (by decide) rfl

end ByteFieldModel
